import Mathlib

/-
  Verification development for the railway-network data structure
  (datastructures.hh / datastructures.cc).

  The C++ class `Datastructures` is shallowly embedded as a pure state
  type `DS` (three association lists mirroring the three unordered_maps)
  together with one Lean function per C++ member function.  Pointers
  (`Station*`) are represented by station identifiers: every pointer the
  C++ code stores points at a value of the `stations` map, so following a
  pointer is a lookup by key.  Machine integers are modelled by Nat / Int;
  the only place where the width of a C++ type is observable is the
  conversion of the int-valued scratch field `d` to the 16-bit `Time`
  type, which is modelled explicitly as reduction mod 65536.
-/

set_option autoImplicit false

namespace Rail

/-! ## Identifier types and sentinel values (datastructures.hh) -/

abbrev StationID := String
abbrev TrainID := String
abbrev RegionID := Nat
abbrev Name := String
abbrev Time := Nat        -- C++ `unsigned short`; callers pass values < 2^16
abbrev Distance := Int

def NO_STATION : StationID := "---"
def NO_TRAIN : TrainID := "---"
-- RegionID is `unsigned long long`; NO_REGION is (RegionID)(-1) = 2^64 - 1.
def NO_REGION : RegionID := 18446744073709551615
def NO_NAME : Name := "!NO_NAME!"
def NO_TIME : Time := 9999
def NO_VALUE : Int := -2147483648

structure Coord where
  x : Int
  y : Int
deriving DecidableEq, Repr

def NO_COORD : Coord := ⟨NO_VALUE, NO_VALUE⟩
def NO_DISTANCE : Distance := NO_VALUE

/-- Integer square root by upward scan: the largest `r` with `r * r ≤ n`
(the fuel argument only bounds the scan and is always sufficient). -/
def isqrtGo (n : Nat) : Nat → Nat → Nat
  | 0, r => r
  | fuel + 1, r => if (r + 1) * (r + 1) ≤ n then isqrtGo n fuel (r + 1) else r

def isqrt (n : Nat) : Nat := isqrtGo n n 0

/--
`distance_between_points` computes `sqrt(pow(a.x-b.x,2) + pow(a.y-b.y,2))`
truncated to int.  For the integer coordinates the program handles, the
double computation is exact up to the final truncation, so the result is
the integer square root of the exact sum of squares.
-/
def distance_between_points (a b : Coord) : Distance :=
  Int.ofNat (isqrt ((a.x - b.x).natAbs ^ 2 + (a.y - b.y).natAbs ^ 2))

/-! ## Association lists standing for the unordered_maps -/

/-- First-match lookup, as `unordered_map::find` followed by dereference. -/
def alookup {α β : Type} [DecidableEq α] : List (α × β) → α → Option β
  | [], _ => none
  | (k, v) :: r, k' => if k' = k then some v else alookup r k'

/-- Replace the value stored at a key (assignment through an iterator).
A key that is absent is left absent. -/
def amodify {α β : Type} [DecidableEq α] (k' : α) (f : β → β) :
    List (α × β) → List (α × β)
  | [] => []
  | (k, v) :: r => if k' = k then (k, f v) :: r else (k, v) :: amodify k' f r

/-- Remove the first entry with the given key (`unordered_map::erase`). -/
def aerase {α β : Type} [DecidableEq α] (k' : α) :
    List (α × β) → List (α × β)
  | [] => []
  | (k, v) :: r => if k' = k then r else (k, v) :: aerase k' r

/-! ## Records (private structs of class Datastructures) -/

/--
The `Station` struct.  `departures` is the map from a time to the set of
trains departing then (the set is kept as a duplicate-free list in
insertion order).  `stations_to` is the list of outgoing edges
`(departure_time, (arrival_time, destination))`; the C++ destination
pointer is the destination station identifier here.  `color`, `d`, `de`
and `pi` are the transient per-query search scratch fields.
-/
structure Station where
  id : StationID
  name : Name
  location : Coord
  region : RegionID
  departures : List (Time × List TrainID)
  stations_to : List (Time × Time × StationID)
  color : Nat
  d : Int
  de : Int
  pi : Option StationID
deriving DecidableEq, Repr

structure Region where
  id : RegionID
  name : Name
  coordinates : List Coord
  parent : RegionID
  subregions : List RegionID
deriving DecidableEq, Repr

structure Train where
  id : TrainID
  stationtimes : List (StationID × Time)
deriving DecidableEq, Repr

/-- The whole state of a `Datastructures` object. -/
structure DS where
  stations : List (StationID × Station)
  regions : List (RegionID × Region)
  trains : List (TrainID × Train)
deriving DecidableEq, Repr

def initDS : DS := ⟨[], [], []⟩

/-! ## Entity registry operations -/

/-- `Datastructures::add_station` (datastructures.cc:69). -/
def add_station (σ : DS) (id : StationID) (name : Name) (xy : Coord) : Bool × DS :=
  match alookup σ.stations id with
  | some _ => (false, σ)
  | none =>
    if id ≠ NO_STATION ∧ name ≠ NO_NAME ∧ xy ≠ NO_COORD then
      (true, { σ with stations :=
        σ.stations ++ [(id, ⟨id, name, xy, NO_REGION, [], [], 0, 999999, 999999, none⟩)] })
    else (false, σ)

/-- `Datastructures::change_station_coord` (datastructures.cc:178). -/
def change_station_coord (σ : DS) (id : StationID) (newcoord : Coord) : Bool × DS :=
  match alookup σ.stations id with
  | some _ =>
    let st' := amodify id (fun s => { s with location := newcoord }) σ.stations
    (true, { σ with stations := st' })
  | none => (false, σ)

/-- `Datastructures::remove_station` (datastructures.cc:472). -/
def remove_station (σ : DS) (id : StationID) : Bool × DS :=
  match alookup σ.stations id with
  | some _ => (true, { σ with stations := aerase id σ.stations })
  | none => (false, σ)

/-- `Datastructures::add_departure` (datastructures.cc:195). -/
def add_departure (σ : DS) (stationid : StationID) (trainid : TrainID) (time : Time) :
    Bool × DS :=
  match alookup σ.stations stationid with
  | none => (false, σ)
  | some st =>
    match alookup st.departures time with
    | some trs =>
      if trainid ∈ trs then (false, σ)
      else
        let st' := amodify stationid
          (fun s => { s with departures := amodify time (fun l => l ++ [trainid]) s.departures })
          σ.stations
        (true, { σ with stations := st' })
    | none =>
      let st' := amodify stationid
        (fun s => { s with departures := s.departures ++ [(time, [trainid])] })
        σ.stations
      (true, { σ with stations := st' })

/-- `Datastructures::remove_departure` (datastructures.cc:223). -/
def remove_departure (σ : DS) (stationid : StationID) (trainid : TrainID) (time : Time) :
    Bool × DS :=
  match alookup σ.stations stationid with
  | none => (false, σ)
  | some st =>
    match alookup st.departures time with
    | none => (false, σ)
    | some trs =>
      if trainid ∈ trs then
        let st' := amodify stationid
          (fun s =>
            let deps := if trs.erase trainid = [] then aerase time s.departures
              else amodify time (fun l => l.erase trainid) s.departures
            { s with departures := deps })
          σ.stations
        (true, { σ with stations := st' })
      else (false, σ)

/-- `Datastructures::clear_all` (datastructures.cc:42): clears stations and
regions, leaves trains alone. -/
def clear_all (σ : DS) : DS :=
  { σ with stations := [], regions := [] }

/-- `Datastructures::clear_trains` (datastructures.cc:639). -/
def clear_trains (σ : DS) : DS :=
  { σ with trains := [] }

/-! ## Region operations -/

/-- `Datastructures::add_region` (datastructures.cc:282).  Note: no check
against sentinel ids or names, only the duplicate check. -/
def add_region (σ : DS) (id : RegionID) (name : Name) (coords : List Coord) : Bool × DS :=
  match alookup σ.regions id with
  | some _ => (false, σ)
  | none => (true, { σ with regions := σ.regions ++ [(id, ⟨id, name, coords, NO_REGION, []⟩)] })

/-- `Datastructures::add_subregion_to_region` (datastructures.cc:340). -/
def add_subregion_to_region (σ : DS) (id parentid : RegionID) : Bool × DS :=
  match alookup σ.regions id, alookup σ.regions parentid with
  | some child, some _ =>
    if child.parent ≠ NO_REGION then (false, σ)
    else
      let withChild := amodify parentid
        (fun r => if id ∈ r.subregions then r else { r with subregions := r.subregions ++ [id] })
        σ.regions
      (true, { σ with regions := amodify id (fun r => { r with parent := parentid }) withChild })
  | _, _ => (false, σ)

/-- `Datastructures::add_station_to_region` (datastructures.cc:362). -/
def add_station_to_region (σ : DS) (id : StationID) (parentid : RegionID) : Bool × DS :=
  match alookup σ.stations id, alookup σ.regions parentid with
  | some st, some _ =>
    if st.region ≠ NO_REGION then (false, σ)
    else
      let st' := amodify id (fun s => { s with region := parentid }) σ.stations
      (true, { σ with stations := st' })
  | _, _ => (false, σ)

/--
One iteration step of the chain-building while loop of
`common_parent_of_regions` (datastructures.cc:503-515): each of the two
iterators advances to its parent (recording it) while its current region
has a parent, and the loop exits when both chains are exhausted.
`none` stands for `regions.end()`.
-/
def cpLoop (regs : List (RegionID × Region)) :
    Nat → Option Region → Option Region → List RegionID → List RegionID →
    List RegionID × List RegionID
  | 0, _, _, p1, p2 => (p1, p2)
  | fuel + 1, it1, it2, p1, p2 =>
    let step1 :=
      match it1 with
      | some r => if r.parent ≠ NO_REGION then (alookup regs r.parent, p1 ++ [r.parent]) else (it1, p1)
      | none => (it1, p1)
    let step2 :=
      match it2 with
      | some r => if r.parent ≠ NO_REGION then (alookup regs r.parent, p2 ++ [r.parent]) else (it2, p2)
      | none => (it2, p2)
    let done1 := match step1.1 with | none => true | some r => decide (r.parent = NO_REGION)
    let done2 := match step2.1 with | none => true | some r => decide (r.parent = NO_REGION)
    if done1 && done2 then (step1.2, step2.2)
    else cpLoop regs fuel step1.1 step2.1 step1.2 step2.2

/-- `Datastructures::common_parent_of_regions` (datastructures.cc:490). -/
def common_parent_of_regions (σ : DS) (id1 id2 : RegionID) : RegionID :=
  match alookup σ.regions id1, alookup σ.regions id2 with
  | some r1, some r2 =>
    if r1.parent = r2.parent then r1.parent
    else
      let chains := cpLoop σ.regions (σ.regions.length + 1) (some r1) (some r2) [] []
      if chains.1 = [] ∨ chains.2 = [] then NO_REGION
      else
        match chains.1.find? (fun x => decide (x ∈ chains.2)) with
        | some x => x
        | none => NO_REGION
  | _, _ => NO_REGION

/-! ## Network builder -/

/-- Append one outgoing edge to a station
(`stations.at(...).stations_to.push_back(pair)` in add_train). -/
def pushEdge (σ : DS) (sid : StationID) (e : Time × Time × StationID) : DS :=
  { σ with stations := amodify sid (fun s => { s with stations_to := s.stations_to ++ [e] }) σ.stations }

/--
The edge-creating loop of `add_train` (datastructures.cc:549-557): for
every consecutive stop pair, register a departure at the first stop and
append the timed edge to it.  The final stop creates nothing.
-/
def addTrainEdges (trainid : TrainID) : DS → List (StationID × Time) → DS
  | σ, (s1, t1) :: (s2, t2) :: rest =>
    let σ1 := (add_departure σ s1 trainid t1).2
    let σ2 := pushEdge σ1 s1 (t1, t2, s2)
    addTrainEdges trainid σ2 ((s2, t2) :: rest)
  | σ, _ => σ

/-- `Datastructures::add_train` (datastructures.cc:537). -/
def add_train (σ : DS) (trainid : TrainID) (stationtimes : List (StationID × Time)) :
    Bool × DS :=
  match alookup σ.trains trainid with
  | some _ => (false, σ)
  | none =>
    if stationtimes.all (fun p => (alookup σ.stations p.1).isSome) then
      let σ1 := { σ with trains := σ.trains ++ [(trainid, ⟨trainid, stationtimes⟩)] }
      (true, addTrainEdges trainid σ1 stationtimes)
    else (false, σ)

/-! ## Route engine

Every route query starts by resetting, for all stations, exactly the
scratch fields it is going to read and write (`route_any`: `d`, `pi`;
`route_least_stations`: `d`, `de`, `pi`; `route_with_cycle`: `color`,
`pi`; `route_shortest_distance`: all four; `route_earliest_arrival`:
`color`, `d`, `pi`), and reads and writes no other scratch field.  Each
search is therefore carried out on a map of nodes holding the persistent
fields the loop consults plus that freshly reset scratch, and the scratch
values are written back into the state at the end, mirroring the fact
that the C++ loops leave their writes behind in the `Station` records. -/

/-- Conversion of the int scratch field `d` to the 16-bit `Time` type
(happens when `d` is used as a key of `set<pair<Time, Station*>>` and in
the result pairs of `route_earliest_arrival`). -/
def t16 (x : Int) : Int := x % 65536

/-- Pop the minimum-key element of the priority set
(`std::set<std::pair<Key, Station*>>`; among equal keys the C++ order is
the unspecified pointer order, modelled as insertion order). -/
def popMinQ : List (Int × StationID) → Option ((Int × StationID) × List (Int × StationID))
  | [] => none
  | x :: xs =>
    match popMinQ xs with
    | none => some (x, [])
    | some (y, ys) => if x.1 ≤ y.1 then some (x, xs) else some (y, x :: ys)

/-- Erase one exact `(key, station)` entry (`std::set::erase`). -/
def eraseQ (p : Int × StationID) : List (Int × StationID) → List (Int × StationID)
  | [] => []
  | x :: xs => if x = p then xs else x :: eraseQ p xs

/-- Path reconstruction by predecessor links shared by `route_any` and
`route_shortest_distance` (push `(id, d)` for each node from the
destination back to `fromid`; a null predecessor aborts with `{}`).
`none` is returned where the C++ loop returns the empty vector or, on
fuel exhaustion, where it would not terminate. -/
def chainWalk {ν : Type} (nid : ν → StationID) (nd : ν → Int) (npi : ν → Option StationID)
    (m : List (StationID × ν)) (fromid : StationID) :
    Nat → Option StationID → List (StationID × Int) → Option (List (StationID × Int))
  | _, none, _ => none
  | 0, some _, _ => none
  | fuel + 1, some iid, acc =>
    match alookup m iid with
    | none => none
    | some i =>
      if nid i = fromid then some (acc ++ [(nid i, nd i)])
      else chainWalk nid nd npi m fromid fuel (npi i) (acc ++ [(nid i, nd i)])

/-! ### route_any (BFS, datastructures.cc:652) -/

structure AnyNode where
  id : StationID
  location : Coord
  stations_to : List (Time × Time × StationID)
  d : Int
  pi : Option StationID
deriving DecidableEq, Repr

/-- The reset loop of `route_any` (lines 664-667): `d = 999999`,
`pi = nullptr` for every station. -/
def projAny (s : Station) : AnyNode :=
  ⟨s.id, s.location, s.stations_to, 999999, none⟩

def projMapAny (l : List (StationID × Station)) : List (StationID × AnyNode) :=
  l.map (fun p => (p.1, projAny p.2))

/-- Inner edge scan of the BFS (lines 683-693).  Returns the updated map,
the queue (FIFO, grown at the back), and the `found_station` flag. -/
def anyScan (toid uid : StationID) :
    List (Time × Time × StationID) → List (StationID × AnyNode) → List (Int × StationID) →
    List (StationID × AnyNode) × List (Int × StationID) × Bool
  | [], m, q => (m, q, false)
  | (_, _, dest) :: rest, m, q =>
    match alookup m uid, alookup m dest with
    | some u, some v =>
      if v.pi = none then
        let d' := u.d + distance_between_points u.location v.location
        let m' := amodify dest (fun w => { w with d := d', pi := some uid }) m
        let q' := q ++ [(d', dest)]
        if v.id = toid then (m', q', true) else anyScan toid uid rest m' q'
      else
        if v.id = toid then (m, q, true) else anyScan toid uid rest m q
    | _, _ => anyScan toid uid rest m q

/-- The BFS while loop (lines 675-694). -/
def anyLoop (toid : StationID) :
    Nat → List (StationID × AnyNode) → List (Int × StationID) → List (StationID × AnyNode)
  | 0, m, _ => m
  | _ + 1, m, [] => m
  | fuel + 1, m, (_, uid) :: qrest =>
    match alookup m uid with
    | none => anyLoop toid fuel m qrest
    | some u =>
      match anyScan toid uid u.stations_to m qrest with
      | (m', _, true) => m'
      | (m', q', false) => anyLoop toid fuel m' q'

/-- Write the scratch fields `route_any` mutates back into the state. -/
def mergeAny (σ : DS) (m : List (StationID × AnyNode)) : DS :=
  { σ with stations := σ.stations.map (fun p =>
      match alookup m p.1 with
      | some n => (p.1, { p.2 with d := n.d, pi := n.pi })
      | none => p) }

/-- `Datastructures::route_any` (datastructures.cc:652). -/
def route_any (σ : DS) (fromid toid : StationID) : List (StationID × Distance) × DS :=
  if (alookup σ.stations fromid).isSome ∧ (alookup σ.stations toid).isSome then
    if fromid = toid then ([(fromid, 0)], σ)
    else
      let m1 := amodify fromid (fun s => { s with d := 0 }) (projMapAny σ.stations)
      let m2 := anyLoop toid (m1.length + 2) m1 [(0, fromid)]
      let res :=
        match alookup m2 toid with
        | some g =>
          match chainWalk AnyNode.id AnyNode.d AnyNode.pi m2 fromid (m2.length + 1)
              g.pi [(g.id, g.d)] with
          | some l => l.reverse
          | none => []
        | none => []
      (res, mergeAny σ m2)
  else ([(NO_STATION, NO_DISTANCE)], σ)

/-! ### route_least_stations (BFS on hop count, datastructures.cc:723) -/

structure LSNode where
  id : StationID
  location : Coord
  stations_to : List (Time × Time × StationID)
  d : Int
  de : Int
  pi : Option StationID
deriving DecidableEq, Repr

/-- The reset loop of `route_least_stations` (lines 735-739). -/
def projLS (s : Station) : LSNode :=
  ⟨s.id, s.location, s.stations_to, 999999, 999999, none⟩

def projMapLS (l : List (StationID × Station)) : List (StationID × LSNode) :=
  l.map (fun p => (p.1, projLS p.2))

/-- Inner edge scan (lines 756-767): `d` counts hops, `de` accumulates
geographic distance. -/
def lsScan (toid uid : StationID) :
    List (Time × Time × StationID) → List (StationID × LSNode) → List (Int × StationID) →
    List (StationID × LSNode) × List (Int × StationID) × Bool
  | [], m, q => (m, q, false)
  | (_, _, dest) :: rest, m, q =>
    match alookup m uid, alookup m dest with
    | some u, some v =>
      if v.pi = none then
        let d' := u.d + 1
        let de' := u.de + distance_between_points u.location v.location
        let m' := amodify dest (fun w => { w with d := d', de := de', pi := some uid }) m
        let q' := q ++ [(d', dest)]
        if v.id = toid then (m', q', true) else lsScan toid uid rest m' q'
      else
        if v.id = toid then (m, q, true) else lsScan toid uid rest m q
    | _, _ => lsScan toid uid rest m q

/-- The BFS while loop (lines 748-768). -/
def lsLoop (toid : StationID) :
    Nat → List (StationID × LSNode) → List (Int × StationID) → List (StationID × LSNode)
  | 0, m, _ => m
  | _ + 1, m, [] => m
  | fuel + 1, m, (_, uid) :: qrest =>
    match alookup m uid with
    | none => lsLoop toid fuel m qrest
    | some u =>
      match lsScan toid uid u.stations_to m qrest with
      | (m', _, true) => m'
      | (m', q', false) => lsLoop toid fuel m' q'

/-- Reconstruction loop of `route_least_stations` (lines 772-784): the
start station is recorded with distance 0, inner stations with their
accumulated `de`. -/
def lsWalk (m : List (StationID × LSNode)) (fromid : StationID) :
    Nat → Option StationID → List (StationID × Int) → Option (List (StationID × Int))
  | _, none, _ => none
  | 0, some _, _ => none
  | fuel + 1, some iid, acc =>
    match alookup m iid with
    | none => none
    | some i =>
      if i.id = fromid then some (acc ++ [(i.id, 0)])
      else lsWalk m fromid fuel i.pi (acc ++ [(i.id, i.de)])

def mergeLS (σ : DS) (m : List (StationID × LSNode)) : DS :=
  { σ with stations := σ.stations.map (fun p =>
      match alookup m p.1 with
      | some n => (p.1, { p.2 with d := n.d, de := n.de, pi := n.pi })
      | none => p) }

/-- `Datastructures::route_least_stations` (datastructures.cc:723). -/
def route_least_stations (σ : DS) (fromid toid : StationID) :
    List (StationID × Distance) × DS :=
  if (alookup σ.stations fromid).isSome ∧ (alookup σ.stations toid).isSome then
    if fromid = toid then ([(fromid, 0)], σ)
    else
      let m1 := amodify fromid (fun s => { s with d := 0, de := 0 }) (projMapLS σ.stations)
      let m2 := lsLoop toid (m1.length + 2) m1 [(0, fromid)]
      let res :=
        match alookup m2 toid with
        | some g =>
          match lsWalk m2 fromid (m2.length + 1) g.pi [(g.id, g.de)] with
          | some l => l.reverse
          | none => []
        | none => []
      (res, mergeLS σ m2)
  else ([(NO_STATION, NO_DISTANCE)], σ)

/-! ### route_with_cycle (DFS, datastructures.cc:796) -/

structure CycNode where
  id : StationID
  stations_to : List (Time × Time × StationID)
  color : Nat
  pi : Option StationID
deriving DecidableEq, Repr

/-- The reset loop of `route_with_cycle` (lines 804-807): `color = 0`,
`pi = nullptr`. -/
def projCyc (s : Station) : CycNode :=
  ⟨s.id, s.stations_to, 0, none⟩

def projMapCyc (l : List (StationID × Station)) : List (StationID × CycNode) :=
  l.map (fun p => (p.1, projCyc p.2))

/-- Inner edge scan of the DFS (lines 825-835): white neighbours get a
predecessor and are pushed, a grey neighbour reports the closing edge
`(g, cycled)` and halts. -/
def cycScan (uid : StationID) :
    List (Time × Time × StationID) → List (StationID × CycNode) → List StationID →
    List (StationID × CycNode) × List StationID × Option (StationID × StationID)
  | [], m, s => (m, s, none)
  | (_, _, dest) :: rest, m, s =>
    match alookup m dest with
    | none => cycScan uid rest m s
    | some v =>
      if v.color = 0 then
        let m' := amodify dest (fun w => { w with pi := some uid }) m
        cycScan uid rest m' (dest :: s)
      else
        if v.color = 1 then (m, s, some (uid, dest))
        else cycScan uid rest m s

/-- The DFS while loop (lines 815-837); the stack grows at the head. -/
def cycLoop :
    Nat → List (StationID × CycNode) → List StationID →
    List (StationID × CycNode) × Option (StationID × StationID)
  | 0, m, _ => (m, none)
  | _ + 1, m, [] => (m, none)
  | fuel + 1, m, uid :: srest =>
    match alookup m uid with
    | none => cycLoop fuel m srest
    | some u =>
      if u.color = 0 then
        let m' := amodify uid (fun w => { w with color := 1 }) m
        match cycScan uid u.stations_to m' (uid :: srest) with
        | (m'', _, some gc) => (m'', some gc)
        | (m'', s'', none) => cycLoop fuel m'' s''
      else cycLoop fuel m srest

/-- Reconstruction loop (lines 845-856), pushing station identifiers. -/
def cycWalk (m : List (StationID × CycNode)) (sid : StationID) :
    Nat → Option StationID → List StationID → Option (List StationID)
  | _, none, _ => none
  | 0, some _, _ => none
  | fuel + 1, some iid, acc =>
    match alookup m iid with
    | none => none
    | some i =>
      if i.id = sid then some (acc ++ [i.id])
      else cycWalk m sid fuel i.pi (acc ++ [i.id])

def mergeCyc (σ : DS) (m : List (StationID × CycNode)) : DS :=
  { σ with stations := σ.stations.map (fun p =>
      match alookup m p.1 with
      | some n => (p.1, { p.2 with color := n.color, pi := n.pi })
      | none => p) }

/-- Total number of outgoing edges, used only to size the DFS fuel. -/
def totalEdges (l : List (StationID × Station)) : Nat :=
  (l.map (fun p => p.2.stations_to.length)).sum

/-- `Datastructures::route_with_cycle` (datastructures.cc:796). -/
def route_with_cycle (σ : DS) (fromid : StationID) : List StationID × DS :=
  if (alookup σ.stations fromid).isSome then
    let m0 := projMapCyc σ.stations
    match cycLoop (m0.length + totalEdges σ.stations + 2) m0 [fromid] with
    | (m2, none) => ([], mergeCyc σ m2)
    | (m2, some (gk, ck)) =>
      let cid := match alookup m2 ck with | some c => c.id | none => NO_STATION
      let sid := match alookup m2 fromid with | some s => s.id | none => NO_STATION
      let res :=
        match alookup m2 gk with
        | some g =>
          match cycWalk m2 sid (m2.length + 1) g.pi [cid, g.id] with
          | some l => l.reverse
          | none => []
        | none => []
      (res, mergeCyc σ m2)
  else ([NO_STATION], σ)

/-! ### route_shortest_distance (A*, datastructures.cc:870) -/

structure AstarNode where
  id : StationID
  location : Coord
  stations_to : List (Time × Time × StationID)
  color : Nat
  d : Int
  de : Int
  pi : Option StationID
deriving DecidableEq, Repr

/-- The reset loop of `route_shortest_distance` (lines 882-887). -/
def projAstar (s : Station) : AstarNode :=
  ⟨s.id, s.location, s.stations_to, 0, 999999, 999999, none⟩

def projMapAstar (l : List (StationID × Station)) : List (StationID × AstarNode) :=
  l.map (fun p => (p.1, projAstar p.2))

/-- `Datastructures::relax_astar` (datastructures.cc:1074).  `gloc` is
`g->location` (never mutated during a query). -/
def relax_astar (uid : StationID) (u v : AstarNode) (gloc : Coord) : AstarNode :=
  let new_d := distance_between_points u.location v.location
  if v.d > u.d + new_d then
    let min_est := distance_between_points v.location gloc
    { v with d := u.d + new_d, de := u.d + new_d + min_est, pi := some uid }
  else v

/-- Inner edge scan of the A* loop (lines 902-918).  Note that the
re-queue searches the set for the pair keyed by the NEW `de`, so it never
finds the stale entry and the priority of an already queued node is in
fact never decreased. -/
def astarScan (uid : StationID) (gloc : Coord) :
    List (Time × Time × StationID) → List (StationID × AstarNode) → List (Int × StationID) →
    List (StationID × AstarNode) × List (Int × StationID)
  | [], m, q => (m, q)
  | (_, _, dest) :: rest, m, q =>
    match alookup m uid, alookup m dest with
    | some u, some v =>
      let de_old := v.de
      let v' := relax_astar uid u v gloc
      let m' := amodify dest (fun _ => v') m
      if v'.color = 0 then
        let m'' := amodify dest (fun w => { w with color := 1 }) m'
        astarScan uid gloc rest m'' (q ++ [(v'.de, dest)])
      else
        if de_old > v'.de ∧ (v'.de, dest) ∈ q then
          astarScan uid gloc rest m' (eraseQ (v'.de, dest) q ++ [(v'.de, dest)])
        else astarScan uid gloc rest m' q
    | _, _ => astarScan uid gloc rest m q

/-- The A* while loop (lines 894-919); `gid` is `g->id`. -/
def astarLoop (gid : StationID) (gloc : Coord) :
    Nat → List (StationID × AstarNode) → List (Int × StationID) → List (StationID × AstarNode)
  | 0, m, _ => m
  | fuel + 1, m, q =>
    match popMinQ q with
    | none => m
    | some ((_, uid), qrest) =>
      match alookup m uid with
      | none => astarLoop gid gloc fuel m qrest
      | some u =>
        if u.id = gid then m
        else
          match astarScan uid gloc u.stations_to m qrest with
          | (m', q') => astarLoop gid gloc fuel m' q'

def mergeAstar (σ : DS) (m : List (StationID × AstarNode)) : DS :=
  { σ with stations := σ.stations.map (fun p =>
      match alookup m p.1 with
      | some n => (p.1, { p.2 with color := n.color, d := n.d, de := n.de, pi := n.pi })
      | none => p) }

/-- `Datastructures::route_shortest_distance` (datastructures.cc:870). -/
def route_shortest_distance (σ : DS) (fromid toid : StationID) :
    List (StationID × Distance) × DS :=
  match alookup σ.stations fromid, alookup σ.stations toid with
  | some _, some sg =>
    if fromid = toid then ([(fromid, 0)], σ)
    else
      let m1 := amodify fromid (fun s => { s with d := 0 }) (projMapAstar σ.stations)
      let m2 := astarLoop sg.id sg.location (m1.length + 2) m1 [(0, fromid)]
      let res :=
        match alookup m2 toid with
        | some g =>
          match chainWalk AstarNode.id AstarNode.d AstarNode.pi m2 fromid (m2.length + 1)
              g.pi [(g.id, g.d)] with
          | some l => l.reverse
          | none => []
        | none => []
      (res, mergeAstar σ m2)
  | _, _ => ([(NO_STATION, NO_DISTANCE)], σ)

/-! ### route_earliest_arrival (time Dijkstra, datastructures.cc:949) -/

structure DijNode where
  id : StationID
  stations_to : List (Time × Time × StationID)
  color : Nat
  d : Int
  pi : Option StationID
deriving DecidableEq, Repr

/-- The reset loop of `route_earliest_arrival` (lines 961-965). -/
def projDij (s : Station) : DijNode :=
  ⟨s.id, s.stations_to, 0, 999999, none⟩

def projMapDij (l : List (StationID × Station)) : List (StationID × DijNode) :=
  l.map (fun p => (p.1, projDij p.2))

/-- Inner edge scan of the Dijkstra loop (lines 981-997) together with
`Datastructures::relax_dijkstra` (datastructures.cc:1092); the relax
writes the chosen departure back into `u->d` as well.  `d_old` is read
into a `Time` variable, and the set keys are `Time`, hence the `t16`
conversions. -/
def dijScan (uid : StationID) :
    List (Time × Time × StationID) → List (StationID × DijNode) → List (Int × StationID) →
    List (StationID × DijNode) × List (Int × StationID)
  | [], m, q => (m, q)
  | (dep, arr, dest) :: rest, m, q =>
    match alookup m uid, alookup m dest with
    | some u, some v =>
      let d_old := t16 v.d
      let m' :=
        if v.d > (arr : Int) ∧ u.d < (arr : Int) ∧ u.d ≤ (dep : Int) ∧ (dep : Int) < (arr : Int) then
          amodify dest (fun w => { w with d := (arr : Int), pi := some uid })
            (amodify uid (fun w => { w with d := (dep : Int) }) m)
        else m
      match alookup m' dest with
      | none => dijScan uid rest m' q
      | some v2 =>
        if v2.color = 0 then
          let m'' := amodify dest (fun w => { w with color := 1 }) m'
          dijScan uid rest m'' (q ++ [(t16 v2.d, dest)])
        else
          if d_old > v2.d ∧ (t16 v2.d, dest) ∈ q then
            dijScan uid rest m' (eraseQ (t16 v2.d, dest) q ++ [(t16 v2.d, dest)])
          else dijScan uid rest m' q
    | _, _ => dijScan uid rest m q

/-- The Dijkstra while loop (lines 973-998); `gid` is `g->id`. -/
def dijLoop (gid : StationID) :
    Nat → List (StationID × DijNode) → List (Int × StationID) → List (StationID × DijNode)
  | 0, m, _ => m
  | fuel + 1, m, q =>
    match popMinQ q with
    | none => m
    | some ((_, uid), qrest) =>
      match alookup m uid with
      | none => dijLoop gid fuel m qrest
      | some u =>
        if u.id = gid then m
        else
          match dijScan uid u.stations_to m qrest with
          | (m', q') => dijLoop gid fuel m' q'

/-- The path-collecting loop of `route_earliest_arrival` (lines 1004-1015);
records the keys of the stations from the destination back to `fromid`. -/
def dijPath (m : List (StationID × DijNode)) (fromid : StationID) :
    Nat → Option StationID → List StationID → Option (List StationID)
  | _, none, _ => none
  | 0, some _, _ => none
  | fuel + 1, some iid, acc =>
    match alookup m iid with
    | none => none
    | some i =>
      if i.id = fromid then some (acc ++ [iid])
      else dijPath m fromid fuel i.pi (acc ++ [iid])

/-- Inner edge scan of the backward pass (lines 1020-1027): among the
edges from `x` to the next station of the path, the ones departing no
earlier than the previous arrival, strictly earlier than the current
departure recorded at `x`, and arriving in time, lower `x.d` and record
their arrival in `tracker`. -/
def bpScan (xk nextk : StationID) (prev_arrival : Time) :
    List (Time × Time × StationID) → List (StationID × DijNode) → Time →
    List (StationID × DijNode) × Time
  | [], m, tracker => (m, tracker)
  | (dep, arr, dest) :: rest, m, tracker =>
    match alookup m dest, alookup m nextk, alookup m xk with
    | some vdest, some vnext, some vx =>
      if vdest.id = vnext.id ∧ (dep : Int) < vx.d ∧ prev_arrival ≤ dep ∧ (arr : Int) ≤ vnext.d then
        bpScan xk nextk prev_arrival rest
          (amodify xk (fun w => { w with d := (dep : Int) }) m) arr
      else bpScan xk nextk prev_arrival rest m tracker
    | _, _, _ => bpScan xk nextk prev_arrival rest m tracker

/-- The backward pass (lines 1016-1030) over the path listed from the
start to the destination; the last station is skipped, and after every
station `prev_arrival` is set from `tracker` (initially 2500). -/
def bpLoop : List StationID → List (StationID × DijNode) → Time → Time →
    List (StationID × DijNode)
  | x :: next :: rest, m, prev_arrival, tracker =>
    match alookup m x with
    | some vx =>
      match bpScan x next prev_arrival vx.stations_to m tracker with
      | (m', tracker') => bpLoop (next :: rest) m' tracker' tracker'
    | none => bpLoop (next :: rest) m tracker tracker
  | _, m, _, _ => m

def mergeDij (σ : DS) (m : List (StationID × DijNode)) : DS :=
  { σ with stations := σ.stations.map (fun p =>
      match alookup m p.1 with
      | some n => (p.1, { p.2 with color := n.color, d := n.d, pi := n.pi })
      | none => p) }

/-- `Datastructures::route_earliest_arrival` (datastructures.cc:949). -/
def route_earliest_arrival (σ : DS) (fromid toid : StationID) (starttime : Time) :
    List (StationID × Time) × DS :=
  match alookup σ.stations fromid, alookup σ.stations toid with
  | some _, some sg =>
    if fromid = toid then ([(fromid, starttime)], σ)
    else
      let m1 := amodify fromid (fun s => { s with d := (starttime : Int) }) (projMapDij σ.stations)
      let m2 := dijLoop sg.id (m1.length + 2) m1 [(0, fromid)]
      match alookup m2 toid with
      | some g =>
        match dijPath m2 fromid (m2.length + 1) g.pi [toid] with
        | none => ([], mergeDij σ m2)
        | some path =>
          let m3 := bpLoop path.reverse m2 starttime 2500
          let res := path.reverse.map (fun k =>
            match alookup m3 k with
            | some v => (v.id, (t16 v.d).toNat)
            | none => (NO_STATION, NO_TIME))
          (res, mergeDij σ m3)
      | none => ([], mergeDij σ m2)
  | _, _ => ([(NO_STATION, NO_TIME)], σ)

/-! ## Graph-theoretic notions used by the specification -/

/-- One hop along a stored outgoing edge. -/
def stepRel (σ : DS) (a b : StationID) : Prop :=
  ∃ st, alookup σ.stations a = some st ∧ ∃ e ∈ st.stations_to, e.2.2 = b

/-- Reachability by following outgoing edges. -/
def Reaches (σ : DS) : StationID → StationID → Prop :=
  Relation.ReflTransGen (stepRel σ)

/-- A cycle is reachable from `a`: some reachable edge closes back on its
own tail. -/
def CycleFrom (σ : DS) (a : StationID) : Prop :=
  ∃ v w, Reaches σ a v ∧ stepRel σ v w ∧ Reaches σ w v

/-- The node map of a search carries exactly the edges of the state. -/
def EdgesLike {ν : Type} (σ : DS) (ed : ν → List (Time × Time × StationID))
    (m : List (StationID × ν)) : Prop :=
  ∀ k, (alookup m k).map ed = (alookup σ.stations k).map Station.stations_to

/-- Every predecessor-marked node of a search map is reachable from the
start station. -/
def PiReach {ν : Type} (σ : DS) (f : StationID) (npi : ν → Option StationID)
    (m : List (StationID × ν)) : Prop :=
  ∀ k v, alookup m k = some v → npi v ≠ none → Reaches σ f k

/-- Every station queued by a search is reachable from the start. -/
def QReach (σ : DS) (f : StationID) (q : List (Int × StationID)) : Prop :=
  ∀ p ∈ q, Reaches σ f p.2

/-- Every station on the DFS stack is reachable from the start. -/
def SReach (σ : DS) (f : StationID) (s : List StationID) : Prop :=
  ∀ k ∈ s, Reaches σ f k

/-- Total geographic cost of a path, provided each consecutive pair is
joined by a stored edge. -/
def pathCost (σ : DS) : List StationID → Option Int
  | [] => some 0
  | [_] => some 0
  | a :: b :: rest =>
    match alookup σ.stations a, alookup σ.stations b with
    | some sa, some sb =>
      if sa.stations_to.any (fun e => decide (e.2.2 = b)) then
        (pathCost σ (b :: rest)).map (fun c => distance_between_points sa.location sb.location + c)
      else none
    | _, _ => none

/-- The invariant claimed for edges: departure no later than arrival. -/
def EdgeInv (σ : DS) : Prop :=
  ∀ p ∈ σ.stations, ∀ e ∈ p.2.stations_to, e.1 ≤ e.2.1

instance (σ : DS) : Decidable (EdgeInv σ) :=
  inferInstanceAs (Decidable (∀ p ∈ σ.stations, ∀ e ∈ p.2.stations_to, e.1 ≤ e.2.1))

/-! ## The operation alphabet

All state-changing public operations of the class, plus the five route
queries (they mutate the scratch fields).  The remaining public
operations (`station_count`, the lookups, the sorted listings,
`station_in_regions`, `all_subregions_of_region`, `stations_closest_to`,
`next_stations_from`, `train_stations_from`, `station_departures_after`,
`common_parent_of_regions`) read the structure without modifying it, so
a sequence containing them reaches exactly the states reached without
them. -/

inductive Query where
  | any (f t : StationID)
  | least (f t : StationID)
  | cyc (f : StationID)
  | short (f t : StationID)
  | earliest (f t : StationID) (st : Time)
deriving DecidableEq, Repr

/-- Sum of the three route-result shapes. -/
inductive QOut where
  | pd : List (StationID × Int) → QOut
  | pt : List (StationID × Nat) → QOut
  | ids : List StationID → QOut
deriving DecidableEq, Repr

def runQ : Query → DS → QOut × DS
  | .any f t, σ => ((route_any σ f t).map QOut.pd id : QOut × DS)
  | .least f t, σ => ((route_least_stations σ f t).map QOut.pd id : QOut × DS)
  | .cyc f, σ => ((route_with_cycle σ f).map QOut.ids id : QOut × DS)
  | .short f t, σ => ((route_shortest_distance σ f t).map QOut.pd id : QOut × DS)
  | .earliest f t st, σ => ((route_earliest_arrival σ f t st).map QOut.pt id : QOut × DS)

def runQs : List Query → DS → DS
  | [], σ => σ
  | q :: qs, σ => runQs qs (runQ q σ).2

inductive Op where
  | addStation (id : StationID) (name : Name) (xy : Coord)
  | changeCoord (id : StationID) (xy : Coord)
  | addDeparture (sid : StationID) (tid : TrainID) (t : Time)
  | removeDeparture (sid : StationID) (tid : TrainID) (t : Time)
  | addRegion (id : RegionID) (name : Name) (coords : List Coord)
  | addSubregion (id parentid : RegionID)
  | addStationToRegion (sid : StationID) (rid : RegionID)
  | removeStation (id : StationID)
  | addTrain (tid : TrainID) (sts : List (StationID × Time))
  | clearAll
  | clearTrains
  | runQuery (q : Query)
deriving DecidableEq, Repr

def stepOp (σ : DS) : Op → DS
  | .addStation id n xy => (add_station σ id n xy).2
  | .changeCoord id xy => (change_station_coord σ id xy).2
  | .addDeparture sid tid t => (add_departure σ sid tid t).2
  | .removeDeparture sid tid t => (remove_departure σ sid tid t).2
  | .addRegion id n cs => (add_region σ id n cs).2
  | .addSubregion id pid => (add_subregion_to_region σ id pid).2
  | .addStationToRegion sid rid => (add_station_to_region σ sid rid).2
  | .removeStation id => (remove_station σ id).2
  | .addTrain tid sts => (add_train σ tid sts).2
  | .clearAll => clear_all σ
  | .clearTrains => clear_trains σ
  | .runQuery q => (runQ q σ).2

def runOps (σ : DS) : List Op → DS
  | [] => σ
  | op :: ops => runOps (stepOp σ op) ops

/-- The stop times of a train are nondecreasing. -/
def timesOKB : List (StationID × Time) → Bool
  | a :: b :: r => decide (a.2 ≤ b.2) && timesOKB (b :: r)
  | _ => true

/-- The condition of the amended C4: every `add_train` in the sequence
passes nondecreasing stop times. -/
def opTimesSorted (op : Op) : Prop :=
  (match op with
   | .addTrain _ sts => timesOKB sts
   | _ => true) = true

instance (op : Op) : Decidable (opTimesSorted op) :=
  inferInstanceAs (Decidable (_ = true))

/-! ## Persistent equality of states

Two states agree on everything except possibly the transient scratch
fields `color`, `d`, `de`, `pi` of their stations. -/

def pEqSt (a b : Station) : Prop :=
  a.id = b.id ∧ a.name = b.name ∧ a.location = b.location ∧ a.region = b.region ∧
  a.departures = b.departures ∧ a.stations_to = b.stations_to

def pEq (σ1 σ2 : DS) : Prop :=
  List.Forall₂ (fun p q => p.1 = q.1 ∧ pEqSt p.2 q.2) σ1.stations σ2.stations ∧
  σ1.regions = σ2.regions ∧ σ1.trains = σ2.trains

/-! ## Concrete scenarios referenced by the claims -/

/-- The §8 scenario: three collinear stations and one train. -/
def σC2 : DS := runOps initDS
  [ .addStation "S1" "n1" ⟨0,0⟩
  , .addStation "S2" "n2" ⟨3,4⟩
  , .addStation "S3" "n3" ⟨6,8⟩
  , .addTrain "T1" [("S1",100),("S2",110),("S3",130)] ]

/-- Six stations for the shortest-distance check: the direct edge S→G
costs 14 while S→B→U→V→W→G costs 3+3+2+2+3 = 13, and the improvement of
U (reached more cheaply through B after being queued through S) is never
re-queued. -/
def σ7 : DS := runOps initDS
  [ .addStation "S" "n" ⟨0,0⟩
  , .addStation "B" "n" ⟨2,3⟩
  , .addStation "U" "n" ⟨4,6⟩
  , .addStation "V" "n" ⟨6,7⟩
  , .addStation "W" "n" ⟨8,8⟩
  , .addStation "G" "n" ⟨11,10⟩
  , .addTrain "T1" [("S",10),("U",20)]
  , .addTrain "T2" [("S",10),("B",20)]
  , .addTrain "T3" [("S",10),("G",20)]
  , .addTrain "T4" [("B",30),("U",40)]
  , .addTrain "T5" [("U",30),("V",40)]
  , .addTrain "T6" [("V",50),("W",60)]
  , .addTrain "T7" [("W",70),("G",80)] ]

/-- An acyclic triangle A→B, A→C, B→C.  The depth-first search of
`route_with_cycle` never clears its visited mark, so the cross edge B→C
is taken for a back edge. -/
def σTri : DS := runOps initDS
  [ .addStation "A" "n" ⟨0,0⟩
  , .addStation "B" "n" ⟨1,0⟩
  , .addStation "C" "n" ⟨0,1⟩
  , .addTrain "T1" [("A",10),("B",20)]
  , .addTrain "T2" [("A",10),("C",20)]
  , .addTrain "T3" [("B",30),("C",40)] ]

/-- The same acyclic triangle on stations P, Q, R. -/
def σTri2 : DS := runOps initDS
  [ .addStation "P" "n" ⟨0,0⟩
  , .addStation "Q" "n" ⟨1,0⟩
  , .addStation "R" "n" ⟨0,1⟩
  , .addTrain "T1" [("P",10),("Q",20)]
  , .addTrain "T2" [("P",10),("R",20)]
  , .addTrain "T3" [("Q",30),("R",40)] ]

/-- Country(1) ⊃ State(2) ⊃ City(3). -/
def σRgn : DS := runOps initDS
  [ .addRegion 1 "Country" []
  , .addRegion 2 "State" []
  , .addRegion 3 "City" []
  , .addSubregion 2 1
  , .addSubregion 3 2 ]

/-- Country(1) ⊃ State(2) ⊃ City(3), City2(4). -/
def σRgn4 : DS := runOps initDS
  [ .addRegion 1 "Country" []
  , .addRegion 2 "State" []
  , .addRegion 3 "City" []
  , .addRegion 4 "City2" []
  , .addSubregion 2 1
  , .addSubregion 3 2
  , .addSubregion 4 2 ]

/-- One station, no trains. -/
def σW5 : DS := runOps initDS [ .addStation "A" "N" ⟨0,0⟩ ]

/-- One station and one registered train. -/
def σW9 : DS := runOps initDS
  [ .addStation "A" "N" ⟨0,0⟩, .addTrain "T" [("A",1)] ]

/-- A station already assigned to region 1. -/
def σW10 : DS := runOps initDS
  [ .addStation "A" "N" ⟨0,0⟩, .addRegion 1 "R" [], .addStationToRegion "A" 1 ]

/-- Two stations, no edges at all. -/
def σW6 : DS := runOps initDS
  [ .addStation "X" "N" ⟨0,0⟩, .addStation "Y" "N" ⟨5,5⟩ ]

/-- The operation sequence violating the claimed edge-time invariant:
the train departs A at 200 and B at 100. -/
def opsC4bad : List Op :=
  [ .addStation "A" "N" ⟨0,0⟩
  , .addStation "B" "N" ⟨1,1⟩
  , .addTrain "T" [("A",200),("B",100)] ]

/-- A well-ordered operation sequence. -/
def opsC4good : List Op :=
  [ .addStation "A" "N" ⟨0,0⟩
  , .addStation "B" "N" ⟨1,1⟩
  , .addTrain "T" [("A",100),("B",200)]
  , .runQuery (.any "A" "B")
  , .clearTrains ]

/-! # Theorems -/

/-! ## Association list lemmas -/

theorem alookup_mem {α β : Type} [DecidableEq α] {l : List (α × β)} {k : α} {v : β}
    (h : alookup l k = some v) : (k, v) ∈ l := by
  induction l with
  | nil => simp [alookup] at h
  | cons p r ih =>
    obtain ⟨k', v'⟩ := p
    by_cases hk : k = k'
    · subst hk
      simp only [alookup, if_pos rfl] at h
      cases h
      exact List.mem_cons_self _ _
    · simp only [alookup, if_neg hk] at h
      exact List.mem_cons_of_mem _ (ih h)

theorem alookup_amodify_self {α β : Type} [DecidableEq α] (l : List (α × β)) (k : α)
    (f : β → β) : alookup (amodify k f l) k = (alookup l k).map f := by
  induction l with
  | nil => rfl
  | cons p r ih =>
    obtain ⟨k', v⟩ := p
    by_cases hk : k = k'
    · simp [amodify, alookup, hk]
    · simp [amodify, alookup, hk, ih]

theorem alookup_amodify_ne {α β : Type} [DecidableEq α] (l : List (α × β)) {k k' : α}
    (f : β → β) (h : k' ≠ k) : alookup (amodify k f l) k' = alookup l k' := by
  induction l with
  | nil => rfl
  | cons p r ih =>
    obtain ⟨k'', v⟩ := p
    by_cases hk : k = k''
    · subst hk
      simp [amodify, alookup, if_neg h]
    · by_cases hk2 : k' = k''
      · simp [amodify, alookup, hk, hk2]
      · simp [amodify, alookup, hk, hk2, ih]

theorem alookup_map {α β γ : Type} [DecidableEq α] (l : List (α × β)) (f : β → γ) (k : α) :
    alookup (l.map (fun p => (p.1, f p.2))) k = (alookup l k).map f := by
  induction l with
  | nil => rfl
  | cons p r ih =>
    obtain ⟨k', v⟩ := p
    by_cases hk : k = k'
    · simp [alookup, hk]
    · simp [alookup, hk, ih]

theorem popMinQ_mem {q : List (Int × StationID)} {x : Int × StationID}
    {rest : List (Int × StationID)} (h : popMinQ q = some (x, rest)) :
    x ∈ q ∧ ∀ p ∈ rest, p ∈ q := by
  induction q generalizing x rest with
  | nil => simp [popMinQ] at h
  | cons a as ih =>
    cases hrec : popMinQ as with
    | none =>
      simp only [popMinQ, hrec] at h
      obtain ⟨rfl, rfl⟩ : a = x ∧ [] = rest := by
        constructor <;> [exact congrArg Prod.fst (Option.some.inj h);
          exact congrArg Prod.snd (Option.some.inj h)]
      exact ⟨List.mem_cons_self _ _, by intro p hp; cases hp⟩
    | some yr =>
      obtain ⟨y, ys⟩ := yr
      have hy := ih hrec
      simp only [popMinQ, hrec] at h
      by_cases hle : a.1 ≤ y.1
      · rw [if_pos hle] at h
        obtain ⟨rfl, rfl⟩ : a = x ∧ as = rest := by
          constructor <;> [exact congrArg Prod.fst (Option.some.inj h);
            exact congrArg Prod.snd (Option.some.inj h)]
        exact ⟨List.mem_cons_self _ _, fun p hp => List.mem_cons_of_mem _ hp⟩
      · rw [if_neg hle] at h
        obtain ⟨rfl, rfl⟩ : y = x ∧ a :: ys = rest := by
          constructor <;> [exact congrArg Prod.fst (Option.some.inj h);
            exact congrArg Prod.snd (Option.some.inj h)]
        refine ⟨List.mem_cons_of_mem _ hy.1, ?_⟩
        intro p hp
        rcases List.mem_cons.mp hp with hp | hp
        · exact hp ▸ List.mem_cons_self _ _
        · exact List.mem_cons_of_mem _ (hy.2 p hp)

theorem eraseQ_subset {q : List (Int × StationID)} {x p : Int × StationID}
    (h : p ∈ eraseQ x q) : p ∈ q := by
  induction q with
  | nil => simp [eraseQ] at h
  | cons a as ih =>
    simp only [eraseQ] at h
    by_cases hax : a = x
    · rw [if_pos hax] at h
      exact List.mem_cons_of_mem _ h
    · rw [if_neg hax] at h
      rcases List.mem_cons.mp h with h | h
      · exact h ▸ List.mem_cons_self _ _
      · exact List.mem_cons_of_mem _ (ih h)

/-! ## Persistent equality: route queries change only scratch fields -/

theorem pEqSt_refl (a : Station) : pEqSt a a := ⟨rfl, rfl, rfl, rfl, rfl, rfl⟩

theorem pEqSt_symm {a b : Station} (h : pEqSt a b) : pEqSt b a := by
  obtain ⟨h1, h2, h3, h4, h5, h6⟩ := h
  exact ⟨h1.symm, h2.symm, h3.symm, h4.symm, h5.symm, h6.symm⟩

theorem pEqSt_trans {a b c : Station} (h : pEqSt a b) (h' : pEqSt b c) : pEqSt a c := by
  obtain ⟨h1, h2, h3, h4, h5, h6⟩ := h
  obtain ⟨g1, g2, g3, g4, g5, g6⟩ := h'
  exact ⟨h1.trans g1, h2.trans g2, h3.trans g3, h4.trans g4, h5.trans g5, h6.trans g6⟩

theorem forall₂_trans {α : Type} {R : α → α → Prop}
    (htrans : ∀ a b c, R a b → R b c → R a c) :
    ∀ {l1 l2 l3 : List α}, List.Forall₂ R l1 l2 → List.Forall₂ R l2 l3 →
      List.Forall₂ R l1 l3 := by
  intro l1 l2 l3 h12 h23
  induction h12 generalizing l3 with
  | nil => cases h23; exact List.Forall₂.nil
  | cons hab htail ih =>
    cases h23 with
    | cons hbc htail' => exact List.Forall₂.cons (htrans _ _ _ hab hbc) (ih htail')

theorem forall₂_symm {α : Type} {R : α → α → Prop}
    (hsymm : ∀ a b, R a b → R b a) :
    ∀ {l1 l2 : List α}, List.Forall₂ R l1 l2 → List.Forall₂ R l2 l1 := by
  intro l1 l2 h
  induction h with
  | nil => exact List.Forall₂.nil
  | cons hab _ ih => exact List.Forall₂.cons (hsymm _ _ hab) ih

theorem forall₂_map_self {α : Type} {R : α → α → Prop} (l : List α) (g : α → α)
    (h : ∀ a ∈ l, R a (g a)) : List.Forall₂ R l (l.map g) := by
  induction l with
  | nil => exact List.Forall₂.nil
  | cons a r ih =>
    exact List.Forall₂.cons (h a (List.mem_cons_self _ _))
      (ih (fun x hx => h x (List.mem_cons_of_mem _ hx)))

theorem forall₂_mem_right {α : Type} {R : α → α → Prop} :
    ∀ {l1 l2 : List α}, List.Forall₂ R l1 l2 → ∀ b ∈ l2, ∃ a ∈ l1, R a b := by
  intro l1 l2 h
  induction h with
  | nil => intro b hb; cases hb
  | cons hab _ ih =>
    intro b hb
    rcases List.mem_cons.mp hb with hb | hb
    · exact ⟨_, List.mem_cons_self _ _, hb ▸ hab⟩
    · obtain ⟨a, ha, har⟩ := ih b hb
      exact ⟨a, List.mem_cons_of_mem _ ha, har⟩

theorem pEq_refl (σ : DS) : pEq σ σ :=
  ⟨List.forall₂_same.mpr (fun p _ => ⟨rfl, pEqSt_refl p.2⟩), rfl, rfl⟩

theorem pEq_symm {σ1 σ2 : DS} (h : pEq σ1 σ2) : pEq σ2 σ1 :=
  ⟨forall₂_symm (fun _ _ hab => ⟨hab.1.symm, pEqSt_symm hab.2⟩) h.1, h.2.1.symm, h.2.2.symm⟩

theorem pEq_trans {σ1 σ2 σ3 : DS} (h : pEq σ1 σ2) (h' : pEq σ2 σ3) : pEq σ1 σ3 :=
  ⟨forall₂_trans (fun _ _ _ hab hbc => ⟨hab.1.trans hbc.1, pEqSt_trans hab.2 hbc.2⟩) h.1 h'.1,
   h.2.1.trans h'.2.1, h.2.2.trans h'.2.2⟩

theorem mergeAny_pEq (σ : DS) (m : List (StationID × AnyNode)) : pEq σ (mergeAny σ m) := by
  refine ⟨?_, rfl, rfl⟩
  apply forall₂_map_self
  intro p _
  cases alookup m p.1 with
  | none => exact ⟨rfl, pEqSt_refl p.2⟩
  | some n => exact ⟨rfl, ⟨rfl, rfl, rfl, rfl, rfl, rfl⟩⟩

theorem mergeLS_pEq (σ : DS) (m : List (StationID × LSNode)) : pEq σ (mergeLS σ m) := by
  refine ⟨?_, rfl, rfl⟩
  apply forall₂_map_self
  intro p _
  cases alookup m p.1 with
  | none => exact ⟨rfl, pEqSt_refl p.2⟩
  | some n => exact ⟨rfl, ⟨rfl, rfl, rfl, rfl, rfl, rfl⟩⟩

theorem mergeCyc_pEq (σ : DS) (m : List (StationID × CycNode)) : pEq σ (mergeCyc σ m) := by
  refine ⟨?_, rfl, rfl⟩
  apply forall₂_map_self
  intro p _
  cases alookup m p.1 with
  | none => exact ⟨rfl, pEqSt_refl p.2⟩
  | some n => exact ⟨rfl, ⟨rfl, rfl, rfl, rfl, rfl, rfl⟩⟩

theorem mergeAstar_pEq (σ : DS) (m : List (StationID × AstarNode)) : pEq σ (mergeAstar σ m) := by
  refine ⟨?_, rfl, rfl⟩
  apply forall₂_map_self
  intro p _
  cases alookup m p.1 with
  | none => exact ⟨rfl, pEqSt_refl p.2⟩
  | some n => exact ⟨rfl, ⟨rfl, rfl, rfl, rfl, rfl, rfl⟩⟩

theorem mergeDij_pEq (σ : DS) (m : List (StationID × DijNode)) : pEq σ (mergeDij σ m) := by
  refine ⟨?_, rfl, rfl⟩
  apply forall₂_map_self
  intro p _
  cases alookup m p.1 with
  | none => exact ⟨rfl, pEqSt_refl p.2⟩
  | some n => exact ⟨rfl, ⟨rfl, rfl, rfl, rfl, rfl, rfl⟩⟩

/-- Every route query leaves the persistent part of the state unchanged:
it rewrites only the scratch fields of the stations. -/
theorem runQ_state_pEq (q : Query) (σ : DS) : pEq σ (runQ q σ).2 := by
  cases q with
  | any f t =>
    simp only [runQ, Prod.map]
    unfold route_any
    split
    · split
      · exact pEq_refl σ
      · exact mergeAny_pEq σ _
    · exact pEq_refl σ
  | least f t =>
    simp only [runQ, Prod.map]
    unfold route_least_stations
    split
    · split
      · exact pEq_refl σ
      · exact mergeLS_pEq σ _
    · exact pEq_refl σ
  | cyc f =>
    simp only [runQ, Prod.map, id_eq]
    unfold route_with_cycle
    split
    · dsimp only
      split
      · exact mergeCyc_pEq σ _
      · exact mergeCyc_pEq σ _
    · exact pEq_refl σ
  | short f t =>
    simp only [runQ, Prod.map]
    unfold route_shortest_distance
    split
    · split
      · exact pEq_refl σ
      · exact mergeAstar_pEq σ _
    · exact pEq_refl σ
  | earliest f t st =>
    simp only [runQ, Prod.map, id_eq]
    unfold route_earliest_arrival
    split
    · split
      · exact pEq_refl σ
      · dsimp only
        split
        · split
          · exact mergeDij_pEq σ _
          · exact mergeDij_pEq σ _
        · exact mergeDij_pEq σ _
    · exact pEq_refl σ

/-! ## Rank argument: a state whose stored edges strictly increase some
measure has no reachable cycle -/

theorem stepRel_rank (σ : DS) (f : StationID → Nat)
    (h : ∀ p ∈ σ.stations, ∀ e ∈ p.2.stations_to, f p.1 < f e.2.2) :
    ∀ a b, stepRel σ a b → f a < f b := by
  rintro a b ⟨st, hl, e, he, hd⟩
  have := h (a, st) (alookup_mem hl) e he
  rwa [hd] at this

theorem reaches_rank_le (σ : DS) (f : StationID → Nat)
    (hmono : ∀ a b, stepRel σ a b → f a < f b) :
    ∀ v w, Reaches σ v w → f v ≤ f w := by
  intro v w h
  induction h with
  | refl => exact le_rfl
  | tail _ h2 ih => exact le_trans ih (le_of_lt (hmono _ _ h2))

theorem no_cycleFrom_of_rank (σ : DS) (a : StationID) (f : StationID → Nat)
    (hmono : ∀ a b, stepRel σ a b → f a < f b) : ¬ CycleFrom σ a := by
  rintro ⟨v, w, _, hvw, hwv⟩
  have h1 := hmono v w hvw
  have h2 := reaches_rank_le σ f hmono w v hwv
  omega

/-- The rank used for the two acyclic triangles. -/
def rank3 (x y : StationID) : StationID → Nat :=
  fun a => if a = x then 0 else if a = y then 1 else 2

/-! ## C5, C9, C10: direct consequences of the definitions -/

/-- C5: `add_train` is all-or-nothing.  If the train identifier is
already registered or some stop names an unknown station, it returns
false and the whole state - train registry, departures, edges - is the
unchanged input state. -/
theorem add_train_rejects_unchanged (σ : DS) (tid : TrainID) (sts : List (StationID × Time))
    (h : (alookup σ.trains tid).isSome ∨ ∃ p ∈ sts, alookup σ.stations p.1 = none) :
    add_train σ tid sts = (false, σ) := by
  cases htr : alookup σ.trains tid with
  | some tr => simp [add_train, htr]
  | none =>
    rcases h with h | h
    · rw [htr] at h
      simp at h
    · have hall : sts.all (fun p => (alookup σ.stations p.1).isSome) = false := by
        rcases h with ⟨p, hp, hnone⟩
        simp only [List.all_eq_false]
        exact ⟨p, hp, by simp [hnone]⟩
      simp [add_train, htr, hall]

/-- Witness for C5 at a concrete input: the stop "Z" is unknown. -/
theorem add_train_rejects_unchanged_witness :
    add_train σW5 "T" [("A", 5), ("Z", 6)] = (false, σW5) :=
  add_train_rejects_unchanged σW5 "T" [("A", 5), ("Z", 6)] (Or.inr (by decide))

/-- C9: `clear_all` drops stations and regions but leaves the train
registry untouched, so re-adding a registered train identifier still
fails after `clear_all`. -/
theorem clear_all_preserves_trains (σ : DS) (tid : TrainID) (tr : Train)
    (sts : List (StationID × Time)) (h : alookup σ.trains tid = some tr) :
    (clear_all σ).trains = σ.trains ∧ add_train (clear_all σ) tid sts = (false, clear_all σ) := by
  refine ⟨rfl, ?_⟩
  have h' : alookup (clear_all σ).trains tid = some tr := h
  simp [add_train, h']

/-- Witness for C9 at a concrete input. -/
theorem clear_all_preserves_trains_witness :
    (clear_all σW9).trains = σW9.trains ∧
      add_train (clear_all σW9) "T" [("A", 7)] = (false, clear_all σW9) :=
  clear_all_preserves_trains σW9 "T" ⟨"T", [("A", 1)]⟩ [("A", 7)] (by decide)

/-- C10: a station that already belongs to a region is never re-assigned:
`add_station_to_region` returns false and leaves the state unchanged, for
every target region. -/
theorem add_station_to_region_rejects (σ : DS) (sid : StationID) (rid : RegionID)
    (st : Station) (h1 : alookup σ.stations sid = some st) (h2 : st.region ≠ NO_REGION) :
    add_station_to_region σ sid rid = (false, σ) := by
  simp only [add_station_to_region, h1]
  cases alookup σ.regions rid <;> simp [h2]

/-- Witness for C10 at a concrete input. -/
theorem add_station_to_region_rejects_witness :
    add_station_to_region σW10 "A" 2 = (false, σW10) :=
  add_station_to_region_rejects σW10 "A" 2
    ⟨"A", "N", ⟨0, 0⟩, 1, [], [], 0, 999999, 999999, none⟩ (by decide) (by decide)

/-! ## C2: the concrete earliest-arrival scenario -/

/-- C2 counterexample: on the §8 scenario the result is NOT
`[(S1,90),(S2,110),(S3,130)]` - `relax_dijkstra` writes the departure
time actually used (100) back into the start station. -/
theorem route_earliest_arrival_S1S3_not_claimed :
    (route_earliest_arrival σC2 "S1" "S3" 90).1 ≠ [("S1", 90), ("S2", 110), ("S3", 130)] := by
  decide

/-- C2 amended: the call returns `[(S1,100),(S2,110),(S3,130)]`; the
first component carries the actual departure time 100, not the query
start time 90. -/
theorem route_earliest_arrival_S1S3 :
    (route_earliest_arrival σC2 "S1" "S3" 90).1 = [("S1", 100), ("S2", 110), ("S3", 130)] := by
  decide

/-! ## C7: the A* search misses its decrease-key -/

/-- C7: on the six-station network `σ7` the returned route is the direct
edge S→G of length 14, while the simple path S,B,U,V,W,G, all of whose
hops are stored edges, has total truncated-Euclidean length 13.  The
re-queue in `route_shortest_distance` looks the pair up by the NEW `de`
key, never finds the stale entry, and thus never re-orders an improved
node, so the improvement of U through B is never propagated.  The one
tie in the priority set (B and G both keyed 14, ordered by the
unspecified pointer order in the C++ set) does not matter: popping G
first ends the search at distance 14 at once, and popping B first
improves U to key 14 without re-queueing it, after which G (14) still
pops before the stale U entry (15). -/
theorem route_shortest_distance_suboptimal :
    (route_shortest_distance σ7 "S" "G").1 = [("S", 0), ("G", 14)] ∧
      pathCost σ7 ["S", "B", "U", "V", "W", "G"] = some 13 := by
  constructor <;> decide

/-! ## C1: route_with_cycle reports a cycle on an acyclic graph -/

/-- C1: on the acyclic triangle A→B, A→C, B→C, `route_with_cycle A`
returns the non-empty route [A, B, C] although no cycle is reachable
from A (the stored edges strictly increase the rank A↦0, B↦1, C↦2).
The DFS keeps every visited node grey forever, so the cross edge B→C is
mistaken for a back edge. -/
theorem route_with_cycle_false_positive :
    (route_with_cycle σTri "A").1 = ["A", "B", "C"] ∧ ¬ CycleFrom σTri "A" :=
  ⟨by decide,
   no_cycleFrom_of_rank σTri "A" (rank3 "A" "B") (stepRel_rank σTri (rank3 "A" "B") (by decide))⟩

/-! ## C6 counterexample: the empty-result convention fails for
route_with_cycle -/

/-- C6 counterexample: on the triangle P→Q, P→R, Q→R the start P is a
known station and no cycle is reachable from it, yet the result is not
the empty sequence. -/
theorem route_with_cycle_nonempty_without_cycle :
    (alookup σTri2.stations "P").isSome = true ∧ ¬ CycleFrom σTri2 "P" ∧
      (route_with_cycle σTri2 "P").1 ≠ [] :=
  ⟨by decide,
   no_cycleFrom_of_rank σTri2 "P" (rank3 "P" "Q") (stepRel_rank σTri2 (rank3 "P" "Q") (by decide)),
   by decide⟩

/-! ## C3 counterexample -/

/-- C3 counterexample: with Country(1) ⊃ State(2) ⊃ City(3) the call
`common_parent_of_regions(City, Country)` returns `NO_REGION`, not the
Country: the ancestor chains contain only proper ancestors and Country
has none, so its chain is empty. -/
theorem common_parent_city_country_not_country :
    common_parent_of_regions σRgn 3 1 ≠ 1 ∧ common_parent_of_regions σRgn 3 1 = NO_REGION := by
  constructor <;> decide

/-! ## C4 counterexample -/

/-! ## C3 amended: nearest common ancestor on a three-level hierarchy -/

/-- C3 amended: in every state holding a three-level hierarchy
Country ⊃ State ⊃ City (and a second City2 under the same State),
`common_parent_of_regions(City, Country)` returns `NO_REGION` - the
chains collect only proper ancestors and the Country has none, so its
chain is empty - while two Cities under the same immediate parent State
yield that State (the short-circuit for equal parents). -/
theorem common_parent_three_level (σ : DS) (c s y y2 : RegionID)
    (rc rs ry ry2 : Region)
    (hc : alookup σ.regions c = some rc) (hcp : rc.parent = NO_REGION)
    (hs : alookup σ.regions s = some rs) (hsp : rs.parent = c)
    (hy : alookup σ.regions y = some ry) (hyp : ry.parent = s)
    (hy2 : alookup σ.regions y2 = some ry2) (hy2p : ry2.parent = s)
    (hsnr : s ≠ NO_REGION) (hcnr : c ≠ NO_REGION) :
    common_parent_of_regions σ y c = NO_REGION ∧
      common_parent_of_regions σ y y2 = s ∧ common_parent_of_regions σ y2 y = s := by
  refine ⟨?_, ?_, ?_⟩
  · have hne : ry.parent ≠ rc.parent := by rw [hyp, hcp]; exact hsnr
    obtain ⟨n, hn⟩ : ∃ n, σ.regions.length = n + 1 := by
      cases hl : σ.regions with
      | nil => rw [hl] at hy; simp [alookup] at hy
      | cons a l => exact ⟨l.length, by simp [hl]⟩
    have hloop : cpLoop σ.regions (n + 1 + 1) (some ry) (some rc) [] [] = ([s, c], []) := by
      simp [cpLoop, hyp, hs, hsp, hc, hcp, hsnr, hcnr]
    simp [common_parent_of_regions, hy, hc, hne, hn, hloop]
  · simp [common_parent_of_regions, hy, hy2, hyp, hy2p]
  · simp [common_parent_of_regions, hy, hy2, hyp, hy2p]

/-- Witness for C3 amended on the concrete hierarchy `σRgn4`. -/
theorem common_parent_three_level_witness :
    common_parent_of_regions σRgn4 3 1 = NO_REGION ∧
      common_parent_of_regions σRgn4 3 4 = 2 ∧ common_parent_of_regions σRgn4 4 3 = 2 :=
  common_parent_three_level σRgn4 1 2 3 4
    ⟨1, "Country", [], NO_REGION, [2]⟩ ⟨2, "State", [], 1, [3, 4]⟩
    ⟨3, "City", [], 2, []⟩ ⟨4, "City2", [], 2, []⟩
    (by decide) (by decide) (by decide) (by decide) (by decide) (by decide)
    (by decide) (by decide) (by decide) (by decide)

/-- C4 counterexample: `add_train` never validates the order of the stop
times; the reachable state after `opsC4bad` stores the edge
(200, (100, B)) whose departure 200 exceeds its arrival 100. -/
theorem edge_invariant_violated : ¬ EdgeInv (runOps initDS opsC4bad) := by
  decide

/-! ## C4 amended: the edge-time invariant holds for time-sorted trains -/

theorem edgeInv_amodify {l : List (StationID × Station)} (k : StationID)
    {f : Station → Station}
    (h : ∀ p ∈ l, ∀ e ∈ p.2.stations_to, e.1 ≤ e.2.1)
    (hf : ∀ v : Station, (∀ e ∈ v.stations_to, e.1 ≤ e.2.1) →
      ∀ e ∈ (f v).stations_to, e.1 ≤ e.2.1) :
    ∀ p ∈ amodify k f l, ∀ e ∈ p.2.stations_to, e.1 ≤ e.2.1 := by
  induction l with
  | nil => intro p hp; cases hp
  | cons a r ih =>
    obtain ⟨k', v⟩ := a
    intro p hp
    by_cases hk : k = k'
    · rw [amodify, if_pos hk] at hp
      rcases List.mem_cons.mp hp with hp | hp
      · subst hp
        exact hf v (h (k', v) (List.mem_cons_self _ _))
      · exact h p (List.mem_cons_of_mem _ hp)
    · rw [amodify, if_neg hk] at hp
      rcases List.mem_cons.mp hp with hp | hp
      · subst hp
        exact h (k', v) (List.mem_cons_self _ _)
      · exact ih (fun q hq => h q (List.mem_cons_of_mem _ hq)) p hp

theorem aerase_subset {α β : Type} [DecidableEq α] {l : List (α × β)} {k : α}
    {p : α × β} (h : p ∈ aerase k l) : p ∈ l := by
  induction l with
  | nil => cases h
  | cons a r ih =>
    rw [aerase] at h
    split at h
    · exact List.mem_cons_of_mem _ h
    · rcases List.mem_cons.mp h with h | h
      · exact h ▸ List.mem_cons_self _ _
      · exact List.mem_cons_of_mem _ (ih h)

theorem add_station_EdgeInv (σ : DS) (id : StationID) (n : Name) (xy : Coord)
    (h : EdgeInv σ) : EdgeInv (add_station σ id n xy).2 := by
  unfold add_station
  split
  · exact h
  · split
    · intro p hp
      rcases List.mem_append.mp hp with hp | hp
      · exact h p hp
      · rcases List.mem_singleton.mp hp with rfl
        intro e he
        cases he
    · exact h

theorem change_station_coord_EdgeInv (σ : DS) (id : StationID) (xy : Coord)
    (h : EdgeInv σ) : EdgeInv (change_station_coord σ id xy).2 := by
  unfold change_station_coord
  split
  · exact edgeInv_amodify id h (fun v hv => hv)
  · exact h

theorem add_departure_EdgeInv (σ : DS) (sid : StationID) (tid : TrainID) (t : Time)
    (h : EdgeInv σ) : EdgeInv (add_departure σ sid tid t).2 := by
  unfold add_departure
  split
  · exact h
  · split
    · split
      · exact h
      · exact edgeInv_amodify sid h (fun v hv => hv)
    · exact edgeInv_amodify sid h (fun v hv => hv)

theorem remove_departure_EdgeInv (σ : DS) (sid : StationID) (tid : TrainID) (t : Time)
    (h : EdgeInv σ) : EdgeInv (remove_departure σ sid tid t).2 := by
  unfold remove_departure
  split
  · exact h
  · split
    · exact h
    · split
      · exact edgeInv_amodify sid h (fun v hv => hv)
      · exact h

theorem add_station_to_region_EdgeInv (σ : DS) (sid : StationID) (rid : RegionID)
    (h : EdgeInv σ) : EdgeInv (add_station_to_region σ sid rid).2 := by
  unfold add_station_to_region
  split
  · split
    · exact h
    · exact edgeInv_amodify sid h (fun v hv => hv)
  · exact h

theorem remove_station_EdgeInv (σ : DS) (id : StationID)
    (h : EdgeInv σ) : EdgeInv (remove_station σ id).2 := by
  unfold remove_station
  split
  · exact fun p hp => h p (aerase_subset hp)
  · exact h

theorem pushEdge_EdgeInv (σ : DS) (sid : StationID) (t1 t2 : Time) (dst : StationID)
    (h : EdgeInv σ) (ht : t1 ≤ t2) : EdgeInv (pushEdge σ sid (t1, t2, dst)) := by
  apply edgeInv_amodify sid h
  intro v hv e he
  rcases List.mem_append.mp he with he | he
  · exact hv e he
  · rcases List.mem_singleton.mp he with rfl
    exact ht

theorem addTrainEdges_EdgeInv (tid : TrainID) :
    ∀ (sts : List (StationID × Time)) (σ : DS), EdgeInv σ → timesOKB sts = true →
      EdgeInv (addTrainEdges tid σ sts) := by
  intro sts
  induction sts with
  | nil => intro σ h _; exact h
  | cons a l ih =>
    intro σ h hok
    cases l with
    | nil => exact h
    | cons b r =>
      obtain ⟨s1, t1⟩ := a
      obtain ⟨s2, t2⟩ := b
      rw [timesOKB, Bool.and_eq_true, decide_eq_true_eq] at hok
      have h1 : EdgeInv (add_departure σ s1 tid t1).2 := add_departure_EdgeInv σ s1 tid t1 h
      have h2 : EdgeInv (pushEdge (add_departure σ s1 tid t1).2 s1 (t1, t2, s2)) :=
        pushEdge_EdgeInv _ s1 t1 t2 s2 h1 hok.1
      exact ih _ h2 hok.2

theorem add_train_EdgeInv (σ : DS) (tid : TrainID) (sts : List (StationID × Time))
    (h : EdgeInv σ) (hok : timesOKB sts = true) : EdgeInv (add_train σ tid sts).2 := by
  unfold add_train
  split
  · exact h
  · split
    · exact addTrainEdges_EdgeInv tid sts _ h hok
    · exact h

theorem EdgeInv_of_pEq {σ1 σ2 : DS} (h : pEq σ1 σ2) (hi : EdgeInv σ1) : EdgeInv σ2 := by
  intro p hp
  obtain ⟨a, ha, hk, hst⟩ := forall₂_mem_right h.1 p hp
  have := hi a ha
  rwa [hst.2.2.2.2.2] at this

theorem stepOp_EdgeInv (σ : DS) (op : Op) (h : EdgeInv σ) (hs : opTimesSorted op) :
    EdgeInv (stepOp σ op) := by
  cases op with
  | addStation id n xy => exact add_station_EdgeInv σ id n xy h
  | changeCoord id xy => exact change_station_coord_EdgeInv σ id xy h
  | addDeparture sid tid t => exact add_departure_EdgeInv σ sid tid t h
  | removeDeparture sid tid t => exact remove_departure_EdgeInv σ sid tid t h
  | addRegion id n cs =>
    show EdgeInv (add_region σ id n cs).2
    unfold add_region
    split
    · exact h
    · exact h
  | addSubregion id pid =>
    show EdgeInv (add_subregion_to_region σ id pid).2
    unfold add_subregion_to_region
    split
    · split
      · exact h
      · exact h
    · exact h
  | addStationToRegion sid rid => exact add_station_to_region_EdgeInv σ sid rid h
  | removeStation id => exact remove_station_EdgeInv σ id h
  | addTrain tid sts => exact add_train_EdgeInv σ tid sts h hs
  | clearAll => intro p hp; cases hp
  | clearTrains => exact h
  | runQuery q => exact EdgeInv_of_pEq (runQ_state_pEq q σ) h

/-- C4 amended: in every state reached from the empty structure by a
sequence of operations whose `add_train` calls all received
nondecreasing stop times, every stored outgoing edge satisfies
`departure_time ≤ arrival_time`.  (`add_train` copies consecutive stop
times into the edge unchecked, so the time ordering of the stops is
exactly what the invariant needs.) -/
theorem edges_ordered_of_sorted_trains (ops : List Op)
    (h : ∀ op ∈ ops, opTimesSorted op) : EdgeInv (runOps initDS ops) := by
  have H : ∀ (l : List Op) (σ : DS), (∀ op ∈ l, opTimesSorted op) → EdgeInv σ →
      EdgeInv (runOps σ l) := by
    intro l
    induction l with
    | nil => intro σ _ hσ; exact hσ
    | cons op ops ih =>
      intro σ hl hσ
      exact ih _ (fun o ho => hl o (List.mem_cons_of_mem _ ho))
        (stepOp_EdgeInv σ op hσ (hl op (List.mem_cons_self _ _)))
  exact H ops initDS h (by intro p hp; cases hp)

/-- Witness for C4 amended: a sorted train, a route query and a reset. -/
theorem edges_ordered_of_sorted_trains_witness : EdgeInv (runOps initDS opsC4good) :=
  edges_ordered_of_sorted_trains opsC4good (by decide)

/-! ## C8: route queries are mutually independent

Each query only reads persistent fields and the scratch it has just
reset, so its result is invariant under changes of the leftover scratch,
and each query changes nothing but scratch. -/

theorem alookup_cons {α β : Type} [DecidableEq α] (a : α × β) (l : List (α × β)) (k : α) :
    alookup (a :: l) k = if k = a.1 then some a.2 else alookup l k := by
  obtain ⟨x, y⟩ := a
  rfl

theorem alookup_rel_congr {l1 l2 : List (StationID × Station)}
    (h : List.Forall₂ (fun p q => p.1 = q.1 ∧ pEqSt p.2 q.2) l1 l2) (k : StationID) :
    (alookup l1 k = none ∧ alookup l2 k = none) ∨
      ∃ a b, alookup l1 k = some a ∧ alookup l2 k = some b ∧ pEqSt a b := by
  induction h with
  | nil => exact Or.inl ⟨rfl, rfl⟩
  | cons hab htail ih =>
    rename_i a b l1' l2'
    rw [alookup_cons, alookup_cons, hab.1]
    by_cases hk : k = b.1
    · exact Or.inr ⟨a.2, b.2, by rw [if_pos hk], by rw [if_pos hk], hab.2⟩
    · rw [if_neg hk, if_neg hk]
      exact ih

theorem projMap_congr {ν : Type} (pr : Station → ν)
    (hc : ∀ a b, pEqSt a b → pr a = pr b) :
    ∀ {l1 l2 : List (StationID × Station)},
      List.Forall₂ (fun p q => p.1 = q.1 ∧ pEqSt p.2 q.2) l1 l2 →
      l1.map (fun p => (p.1, pr p.2)) = l2.map (fun p => (p.1, pr p.2)) := by
  intro l1 l2 h
  induction h with
  | nil => rfl
  | cons hab _ ih =>
    simp only [List.map_cons, ih, List.cons.injEq, and_true]
    exact Prod.ext hab.1 (hc _ _ hab.2)

theorem projAny_congr {a b : Station} (h : pEqSt a b) : projAny a = projAny b := by
  obtain ⟨h1, _, h3, _, _, h6⟩ := h
  simp [projAny, h1, h3, h6]

theorem projLS_congr {a b : Station} (h : pEqSt a b) : projLS a = projLS b := by
  obtain ⟨h1, _, h3, _, _, h6⟩ := h
  simp [projLS, h1, h3, h6]

theorem projCyc_congr {a b : Station} (h : pEqSt a b) : projCyc a = projCyc b := by
  obtain ⟨h1, _, _, _, _, h6⟩ := h
  simp [projCyc, h1, h6]

theorem projAstar_congr {a b : Station} (h : pEqSt a b) : projAstar a = projAstar b := by
  obtain ⟨h1, _, h3, _, _, h6⟩ := h
  simp [projAstar, h1, h3, h6]

theorem projDij_congr {a b : Station} (h : pEqSt a b) : projDij a = projDij b := by
  obtain ⟨h1, _, _, _, _, h6⟩ := h
  simp [projDij, h1, h6]

theorem totalEdges_congr {l1 l2 : List (StationID × Station)}
    (h : List.Forall₂ (fun p q => p.1 = q.1 ∧ pEqSt p.2 q.2) l1 l2) :
    totalEdges l1 = totalEdges l2 := by
  induction h with
  | nil => rfl
  | cons hab _ ih =>
    simp only [totalEdges, List.map_cons, List.sum_cons] at *
    rw [hab.2.2.2.2.2.2, ih]

theorem route_any_congr {σ1 σ2 : DS} (h : pEq σ1 σ2) (f t : StationID) :
    (route_any σ1 f t).1 = (route_any σ2 f t).1 := by
  obtain ⟨hst, _, _⟩ := h
  have hm : projMapAny σ1.stations = projMapAny σ2.stations :=
    projMap_congr projAny (fun _ _ => projAny_congr) hst
  unfold route_any
  rcases alookup_rel_congr hst f with ⟨hf1, hf2⟩ | ⟨a1, a2, hf1, hf2, _⟩ <;>
    rcases alookup_rel_congr hst t with ⟨ht1, ht2⟩ | ⟨b1, b2, ht1, ht2, _⟩ <;>
      simp only [hf1, hf2, ht1, ht2, Option.isSome_none, Option.isSome_some, projMapAny] at * <;>
        try rfl
  by_cases hft : f = t
  · simp [hft]
  · simp only [if_neg hft]
    rw [hm]
    rfl

theorem route_least_stations_congr {σ1 σ2 : DS} (h : pEq σ1 σ2) (f t : StationID) :
    (route_least_stations σ1 f t).1 = (route_least_stations σ2 f t).1 := by
  obtain ⟨hst, _, _⟩ := h
  have hm : projMapLS σ1.stations = projMapLS σ2.stations :=
    projMap_congr projLS (fun _ _ => projLS_congr) hst
  unfold route_least_stations
  rcases alookup_rel_congr hst f with ⟨hf1, hf2⟩ | ⟨a1, a2, hf1, hf2, _⟩ <;>
    rcases alookup_rel_congr hst t with ⟨ht1, ht2⟩ | ⟨b1, b2, ht1, ht2, _⟩ <;>
      simp only [hf1, hf2, ht1, ht2, Option.isSome_none, Option.isSome_some, projMapLS] at * <;>
        try rfl
  by_cases hft : f = t
  · simp [hft]
  · simp only [if_neg hft]
    rw [hm]
    rfl

theorem route_with_cycle_congr {σ1 σ2 : DS} (h : pEq σ1 σ2) (f : StationID) :
    (route_with_cycle σ1 f).1 = (route_with_cycle σ2 f).1 := by
  obtain ⟨hst, _, _⟩ := h
  have hm : projMapCyc σ1.stations = projMapCyc σ2.stations :=
    projMap_congr projCyc (fun _ _ => projCyc_congr) hst
  have hte : totalEdges σ1.stations = totalEdges σ2.stations := totalEdges_congr hst
  unfold route_with_cycle
  rcases alookup_rel_congr hst f with ⟨hf1, hf2⟩ | ⟨a1, a2, hf1, hf2, _⟩ <;>
    simp only [hf1, hf2, Option.isSome_none, Option.isSome_some, projMapCyc] at * <;>
      try rfl
  rw [hm, hte]
  simp only [if_true]
  split <;> rfl

theorem route_shortest_distance_congr {σ1 σ2 : DS} (h : pEq σ1 σ2) (f t : StationID) :
    (route_shortest_distance σ1 f t).1 = (route_shortest_distance σ2 f t).1 := by
  obtain ⟨hst, _, _⟩ := h
  have hm : projMapAstar σ1.stations = projMapAstar σ2.stations :=
    projMap_congr projAstar (fun _ _ => projAstar_congr) hst
  unfold route_shortest_distance
  rcases alookup_rel_congr hst f with ⟨hf1, hf2⟩ | ⟨a1, a2, hf1, hf2, _⟩ <;>
    rcases alookup_rel_congr hst t with ⟨ht1, ht2⟩ | ⟨b1, b2, ht1, ht2, hbrel⟩ <;>
      (simp only [hf1, hf2, ht1, ht2, projMapAstar] at *; try rfl)
  by_cases hft : f = t
  · simp [hft]
  · simp only [if_neg hft]
    rw [hm, hbrel.1, hbrel.2.2.1]

theorem route_earliest_arrival_congr {σ1 σ2 : DS} (h : pEq σ1 σ2) (f t : StationID)
    (st : Time) :
    (route_earliest_arrival σ1 f t st).1 = (route_earliest_arrival σ2 f t st).1 := by
  obtain ⟨hst, _, _⟩ := h
  have hm : projMapDij σ1.stations = projMapDij σ2.stations :=
    projMap_congr projDij (fun _ _ => projDij_congr) hst
  unfold route_earliest_arrival
  rcases alookup_rel_congr hst f with ⟨hf1, hf2⟩ | ⟨a1, a2, hf1, hf2, _⟩ <;>
    rcases alookup_rel_congr hst t with ⟨ht1, ht2⟩ | ⟨b1, b2, ht1, ht2, hbrel⟩ <;>
      (simp only [hf1, hf2, ht1, ht2, projMapDij] at *; try rfl)
  by_cases hft : f = t
  · simp [hft]
  · simp only [if_neg hft]
    rw [hm, hbrel.1]
    split
    · split <;> rfl
    · rfl

theorem runQ_result_congr (q : Query) {σ1 σ2 : DS} (h : pEq σ1 σ2) :
    (runQ q σ1).1 = (runQ q σ2).1 := by
  cases q with
  | any f t => simp only [runQ, Prod.map]; rw [route_any_congr h]
  | least f t => simp only [runQ, Prod.map]; rw [route_least_stations_congr h]
  | cyc f => simp only [runQ, Prod.map]; rw [route_with_cycle_congr h]
  | short f t => simp only [runQ, Prod.map]; rw [route_shortest_distance_congr h]
  | earliest f t st => simp only [runQ, Prod.map]; rw [route_earliest_arrival_congr h]

/-- C8: running a route query after any finite sequence of other route
queries (no intervening mutation) returns exactly what it returns on the
state alone: the scratch left by earlier queries never influences the
answer.  Every query resets the scratch it reads before using it, and no
query changes anything except scratch. -/
theorem route_queries_independent (qs : List Query) (q : Query) (σ : DS) :
    (runQ q (runQs qs σ)).1 = (runQ q σ).1 := by
  have h : pEq σ (runQs qs σ) := by
    induction qs generalizing σ with
    | nil => exact pEq_refl σ
    | cons q' qs ih => exact pEq_trans (runQ_state_pEq q' σ) (ih (runQ q' σ).2)
  exact runQ_result_congr q (pEq_symm h)

/-! ## C6: search-loop invariants

Every predecessor link any of the four point-to-point searches writes
goes to a station reachable from the start, because links are written
only while scanning the edges of a station popped from the worklist, and
the worklist only ever holds reachable stations.  Hence an unreachable
destination keeps a null predecessor and the reconstruction returns the
empty route. -/

theorem edgesLike_proj {ν : Type} (σ : DS) (pr : Station → ν)
    (ed : ν → List (Time × Time × StationID)) (hpr : ∀ s, ed (pr s) = s.stations_to) :
    EdgesLike σ ed (σ.stations.map (fun p => (p.1, pr p.2))) := by
  intro k
  rw [alookup_map]
  cases alookup σ.stations k <;> simp [hpr]

theorem edgesLike_amodify {ν : Type} {σ : DS} {ed : ν → List (Time × Time × StationID)}
    {m : List (StationID × ν)} (h : EdgesLike σ ed m) (k : StationID) (f : ν → ν)
    (hf : ∀ v, ed (f v) = ed v) : EdgesLike σ ed (amodify k f m) := by
  intro k'
  by_cases hk : k' = k
  · subst hk
    rw [alookup_amodify_self, ← h k']
    cases alookup m k' <;> simp [hf]
  · rw [alookup_amodify_ne _ _ hk]
    exact h k'

theorem edges_of_edgesLike {ν : Type} {σ : DS} {ed : ν → List (Time × Time × StationID)}
    {m : List (StationID × ν)} (h : EdgesLike σ ed m) {a : StationID} {v : ν}
    (hv : alookup m a = some v) :
    ∃ st, alookup σ.stations a = some st ∧ st.stations_to = ed v := by
  have hk := h a
  rw [hv] at hk
  cases hl : alookup σ.stations a with
  | none => rw [hl] at hk; simp at hk
  | some st =>
    rw [hl] at hk
    simp only [Option.map_some'] at hk
    exact ⟨st, rfl, (Option.some.inj hk).symm⟩

theorem stepRel_of_edgesLike {ν : Type} {σ : DS} {ed : ν → List (Time × Time × StationID)}
    {m : List (StationID × ν)} (h : EdgesLike σ ed m) {a : StationID} {v : ν}
    (hv : alookup m a = some v) {e : Time × Time × StationID} (he : e ∈ ed v) :
    stepRel σ a e.2.2 := by
  obtain ⟨st, hl, hed⟩ := edges_of_edgesLike h hv
  exact ⟨st, hl, e, by rw [hed]; exact he, rfl⟩

theorem piReach_amodify_reached {ν : Type} {σ : DS} {f : StationID}
    {npi : ν → Option StationID} {m : List (StationID × ν)} (hm : PiReach σ f npi m)
    (k : StationID) (g : ν → ν) (hreach : Reaches σ f k) :
    PiReach σ f npi (amodify k g m) := by
  intro k' w hw hpi
  by_cases hk : k' = k
  · subst hk; exact hreach
  · rw [alookup_amodify_ne _ _ hk] at hw
    exact hm k' w hw hpi

theorem qReach_append {σ : DS} {f : StationID} {q : List (Int × StationID)}
    (hq : QReach σ f q) {d : Int} {k : StationID} (hk : Reaches σ f k) :
    QReach σ f (q ++ [(d, k)]) := by
  intro p hp
  rcases List.mem_append.mp hp with hp | hp
  · exact hq p hp
  · rcases List.mem_singleton.mp hp with rfl
    exact hk

theorem qReach_eraseQ_append {σ : DS} {f : StationID} {q : List (Int × StationID)}
    (hq : QReach σ f q) (x : Int × StationID) {d : Int} {k : StationID}
    (hk : Reaches σ f k) : QReach σ f (eraseQ x q ++ [(d, k)]) := by
  intro p hp
  rcases List.mem_append.mp hp with hp | hp
  · exact hq p (eraseQ_subset hp)
  · rcases List.mem_singleton.mp hp with rfl
    exact hk

theorem chainWalk_none {ν : Type} (nid : ν → StationID) (nd : ν → Int)
    (npi : ν → Option StationID) (m : List (StationID × ν)) (f : StationID) (fu : Nat)
    (acc : List (StationID × Int)) : chainWalk nid nd npi m f fu none acc = none := by
  cases fu <;> rfl

theorem lsWalk_none (m : List (StationID × LSNode)) (f : StationID) (fu : Nat)
    (acc : List (StationID × Int)) : lsWalk m f fu none acc = none := by
  cases fu <;> rfl

theorem dijPath_none (m : List (StationID × DijNode)) (f : StationID) (fu : Nat)
    (acc : List StationID) : dijPath m f fu none acc = none := by
  cases fu <;> rfl

/-! ### route_any -/

theorem anyScan_inv (σ : DS) (f toid uid : StationID) :
    ∀ (es : List (Time × Time × StationID)) (m : List (StationID × AnyNode))
      (q : List (Int × StationID)),
      EdgesLike σ AnyNode.stations_to m →
      Reaches σ f uid →
      (∀ e ∈ es, ∃ st, alookup σ.stations uid = some st ∧ e ∈ st.stations_to) →
      QReach σ f q →
      PiReach σ f AnyNode.pi m →
      EdgesLike σ AnyNode.stations_to (anyScan toid uid es m q).1 ∧
        QReach σ f (anyScan toid uid es m q).2.1 ∧
        PiReach σ f AnyNode.pi (anyScan toid uid es m q).1 := by
  intro es
  induction es with
  | nil =>
    intro m q hE hu hes hq hm
    exact ⟨hE, hq, hm⟩
  | cons e rest ih =>
    intro m q hE hu hes hq hm
    obtain ⟨t1, t2, dest⟩ := e
    have hes' : ∀ e ∈ rest, ∃ st, alookup σ.stations uid = some st ∧ e ∈ st.stations_to :=
      fun e he => hes e (List.mem_cons_of_mem _ he)
    cases hlu : alookup m uid with
    | none =>
      simp only [anyScan, hlu]
      exact ih m q hE hu hes' hq hm
    | some u =>
      cases hlv : alookup m dest with
      | none =>
        simp only [anyScan, hlu, hlv]
        exact ih m q hE hu hes' hq hm
      | some v =>
        have hdest : Reaches σ f dest := by
          obtain ⟨st, hst, hmem⟩ := hes (t1, t2, dest) (List.mem_cons_self _ _)
          exact Relation.ReflTransGen.tail hu ⟨st, hst, (t1, t2, dest), hmem, rfl⟩
        simp only [anyScan, hlu, hlv]
        by_cases hpi : v.pi = none
        · rw [if_pos hpi]
          have hE' := edgesLike_amodify hE dest
            (fun w => { w with d := u.d + distance_between_points u.location v.location, pi := some uid })
            (fun w => rfl)
          have hm' := piReach_amodify_reached hm dest
            (fun w => { w with d := u.d + distance_between_points u.location v.location, pi := some uid })
            hdest
          have hq' := qReach_append hq (d := u.d + distance_between_points u.location v.location)
            hdest
          by_cases hid : v.id = toid
          · rw [if_pos hid]
            exact ⟨hE', hq', hm'⟩
          · rw [if_neg hid]
            exact ih _ _ hE' hu hes' hq' hm'
        · rw [if_neg hpi]
          by_cases hid : v.id = toid
          · rw [if_pos hid]
            exact ⟨hE, hq, hm⟩
          · rw [if_neg hid]
            exact ih m q hE hu hes' hq hm

theorem anyLoop_inv (σ : DS) (f toid : StationID) :
    ∀ (fuel : Nat) (m : List (StationID × AnyNode)) (q : List (Int × StationID)),
      EdgesLike σ AnyNode.stations_to m → QReach σ f q → PiReach σ f AnyNode.pi m →
      PiReach σ f AnyNode.pi (anyLoop toid fuel m q) := by
  intro fuel
  induction fuel with
  | zero => intro m q _ _ hm; exact hm
  | succ n ih =>
    intro m q hE hq hm
    cases q with
    | nil => exact hm
    | cons p qrest =>
      obtain ⟨pd, uid⟩ := p
      have hqrest : QReach σ f qrest := fun x hx => hq x (List.mem_cons_of_mem _ hx)
      cases hlu : alookup m uid with
      | none =>
        simp only [anyLoop, hlu]
        exact ih m qrest hE hqrest hm
      | some u =>
        simp only [anyLoop, hlu]
        have hu : Reaches σ f uid := hq (pd, uid) (List.mem_cons_self _ _)
        have hes : ∀ e ∈ u.stations_to,
            ∃ st, alookup σ.stations uid = some st ∧ e ∈ st.stations_to := by
          intro e he
          obtain ⟨st, hst, hed⟩ := edges_of_edgesLike hE hlu
          exact ⟨st, hst, by rw [hed]; exact he⟩
        have hscan := anyScan_inv σ f toid uid u.stations_to m qrest hE hu hes hqrest hm
        cases hres : anyScan toid uid u.stations_to m qrest with
        | mk m' r2 =>
          obtain ⟨q', found⟩ := r2
          rw [hres] at hscan
          cases found with
          | true => exact hscan.2.2
          | false => exact ih m' q' hscan.1 hscan.2.1 hscan.2.2

theorem route_any_no_route (σ : DS) (f t : StationID)
    (hf : (alookup σ.stations f).isSome = true) (ht : (alookup σ.stations t).isSome = true)
    (hnr : ¬ Reaches σ f t) : (route_any σ f t).1 = [] := by
  have hft : f ≠ t := fun h => hnr (h ▸ Relation.ReflTransGen.refl)
  unfold route_any
  rw [if_pos ⟨hf, ht⟩, if_neg hft]
  dsimp only
  set m1 := amodify f (fun s => { s with d := 0 }) (projMapAny σ.stations) with hm1d
  set m2 := anyLoop t (m1.length + 2) m1 [(0, f)] with hm2d
  have hE : EdgesLike σ AnyNode.stations_to m1 := by
    rw [hm1d]
    exact edgesLike_amodify (edgesLike_proj σ projAny _ (fun s => rfl)) f _ (fun v => rfl)
  have hm1pi : PiReach σ f AnyNode.pi m1 := by
    rw [hm1d]
    intro k v hv hpi
    exfalso
    apply hpi
    by_cases hk : k = f
    · subst hk
      rw [alookup_amodify_self, projMapAny, alookup_map] at hv
      cases hl : alookup σ.stations k with
      | none => rw [hl] at hv; simp at hv
      | some s =>
        rw [hl] at hv
        simp only [Option.map_some'] at hv
        rw [← Option.some.inj hv]
        rfl
    · rw [alookup_amodify_ne _ _ hk, projMapAny, alookup_map] at hv
      cases hl : alookup σ.stations k with
      | none => rw [hl] at hv; simp at hv
      | some s =>
        rw [hl] at hv
        simp only [Option.map_some'] at hv
        rw [← Option.some.inj hv]
        rfl
  have hq0 : QReach σ f [(0, f)] := by
    intro p hp
    rcases List.mem_singleton.mp hp with rfl
    exact Relation.ReflTransGen.refl
  have hfin : PiReach σ f AnyNode.pi m2 := by
    rw [hm2d]
    exact anyLoop_inv σ f t (m1.length + 2) m1 [(0, f)] hE hq0 hm1pi
  cases hg : alookup m2 t with
  | none => rfl
  | some g =>
    have hgpi : g.pi = none := by
      by_contra hne
      exact hnr (hfin t g hg hne)
    dsimp only
    rw [hgpi, chainWalk_none]

/-! ### route_least_stations -/

theorem lsScan_inv (σ : DS) (f toid uid : StationID) :
    ∀ (es : List (Time × Time × StationID)) (m : List (StationID × LSNode))
      (q : List (Int × StationID)),
      EdgesLike σ LSNode.stations_to m →
      Reaches σ f uid →
      (∀ e ∈ es, ∃ st, alookup σ.stations uid = some st ∧ e ∈ st.stations_to) →
      QReach σ f q →
      PiReach σ f LSNode.pi m →
      EdgesLike σ LSNode.stations_to (lsScan toid uid es m q).1 ∧
        QReach σ f (lsScan toid uid es m q).2.1 ∧
        PiReach σ f LSNode.pi (lsScan toid uid es m q).1 := by
  intro es
  induction es with
  | nil =>
    intro m q hE hu hes hq hm
    exact ⟨hE, hq, hm⟩
  | cons e rest ih =>
    intro m q hE hu hes hq hm
    obtain ⟨t1, t2, dest⟩ := e
    have hes' : ∀ e ∈ rest, ∃ st, alookup σ.stations uid = some st ∧ e ∈ st.stations_to :=
      fun e he => hes e (List.mem_cons_of_mem _ he)
    cases hlu : alookup m uid with
    | none =>
      simp only [lsScan, hlu]
      exact ih m q hE hu hes' hq hm
    | some u =>
      cases hlv : alookup m dest with
      | none =>
        simp only [lsScan, hlu, hlv]
        exact ih m q hE hu hes' hq hm
      | some v =>
        have hdest : Reaches σ f dest := by
          obtain ⟨st, hst, hmem⟩ := hes (t1, t2, dest) (List.mem_cons_self _ _)
          exact Relation.ReflTransGen.tail hu ⟨st, hst, (t1, t2, dest), hmem, rfl⟩
        simp only [lsScan, hlu, hlv]
        by_cases hpi : v.pi = none
        · rw [if_pos hpi]
          have hE' := edgesLike_amodify hE dest
            (fun w => { w with d := u.d + 1, de := u.de + distance_between_points u.location v.location, pi := some uid })
            (fun w => rfl)
          have hm' := piReach_amodify_reached hm dest
            (fun w => { w with d := u.d + 1, de := u.de + distance_between_points u.location v.location, pi := some uid })
            hdest
          have hq' := qReach_append hq (d := u.d + 1) hdest
          by_cases hid : v.id = toid
          · rw [if_pos hid]
            exact ⟨hE', hq', hm'⟩
          · rw [if_neg hid]
            exact ih _ _ hE' hu hes' hq' hm'
        · rw [if_neg hpi]
          by_cases hid : v.id = toid
          · rw [if_pos hid]
            exact ⟨hE, hq, hm⟩
          · rw [if_neg hid]
            exact ih m q hE hu hes' hq hm

theorem lsLoop_inv (σ : DS) (f toid : StationID) :
    ∀ (fuel : Nat) (m : List (StationID × LSNode)) (q : List (Int × StationID)),
      EdgesLike σ LSNode.stations_to m → QReach σ f q → PiReach σ f LSNode.pi m →
      PiReach σ f LSNode.pi (lsLoop toid fuel m q) := by
  intro fuel
  induction fuel with
  | zero => intro m q _ _ hm; exact hm
  | succ n ih =>
    intro m q hE hq hm
    cases q with
    | nil => exact hm
    | cons p qrest =>
      obtain ⟨pd, uid⟩ := p
      have hqrest : QReach σ f qrest := fun x hx => hq x (List.mem_cons_of_mem _ hx)
      cases hlu : alookup m uid with
      | none =>
        simp only [lsLoop, hlu]
        exact ih m qrest hE hqrest hm
      | some u =>
        simp only [lsLoop, hlu]
        have hu : Reaches σ f uid := hq (pd, uid) (List.mem_cons_self _ _)
        have hes : ∀ e ∈ u.stations_to,
            ∃ st, alookup σ.stations uid = some st ∧ e ∈ st.stations_to := by
          intro e he
          obtain ⟨st, hst, hed⟩ := edges_of_edgesLike hE hlu
          exact ⟨st, hst, by rw [hed]; exact he⟩
        have hscan := lsScan_inv σ f toid uid u.stations_to m qrest hE hu hes hqrest hm
        cases hres : lsScan toid uid u.stations_to m qrest with
        | mk m' r2 =>
          obtain ⟨q', found⟩ := r2
          rw [hres] at hscan
          cases found with
          | true => exact hscan.2.2
          | false => exact ih m' q' hscan.1 hscan.2.1 hscan.2.2

theorem route_least_stations_no_route (σ : DS) (f t : StationID)
    (hf : (alookup σ.stations f).isSome = true) (ht : (alookup σ.stations t).isSome = true)
    (hnr : ¬ Reaches σ f t) : (route_least_stations σ f t).1 = [] := by
  have hft : f ≠ t := fun h => hnr (h ▸ Relation.ReflTransGen.refl)
  unfold route_least_stations
  rw [if_pos ⟨hf, ht⟩, if_neg hft]
  dsimp only
  set m1 := amodify f (fun s => { s with d := 0, de := 0 }) (projMapLS σ.stations) with hm1d
  set m2 := lsLoop t (m1.length + 2) m1 [(0, f)] with hm2d
  have hE : EdgesLike σ LSNode.stations_to m1 := by
    rw [hm1d]
    exact edgesLike_amodify (edgesLike_proj σ projLS _ (fun s => rfl)) f _ (fun v => rfl)
  have hm1pi : PiReach σ f LSNode.pi m1 := by
    rw [hm1d]
    intro k v hv hpi
    exfalso
    apply hpi
    by_cases hk : k = f
    · subst hk
      rw [alookup_amodify_self, projMapLS, alookup_map] at hv
      cases hl : alookup σ.stations k with
      | none => rw [hl] at hv; simp at hv
      | some s =>
        rw [hl] at hv
        simp only [Option.map_some'] at hv
        rw [← Option.some.inj hv]
        rfl
    · rw [alookup_amodify_ne _ _ hk, projMapLS, alookup_map] at hv
      cases hl : alookup σ.stations k with
      | none => rw [hl] at hv; simp at hv
      | some s =>
        rw [hl] at hv
        simp only [Option.map_some'] at hv
        rw [← Option.some.inj hv]
        rfl
  have hq0 : QReach σ f [(0, f)] := by
    intro p hp
    rcases List.mem_singleton.mp hp with rfl
    exact Relation.ReflTransGen.refl
  have hfin : PiReach σ f LSNode.pi m2 := by
    rw [hm2d]
    exact lsLoop_inv σ f t (m1.length + 2) m1 [(0, f)] hE hq0 hm1pi
  cases hg : alookup m2 t with
  | none => rfl
  | some g =>
    have hgpi : g.pi = none := by
      by_contra hne
      exact hnr (hfin t g hg hne)
    dsimp only
    rw [hgpi, lsWalk_none]

/-! ### route_shortest_distance -/

theorem relax_astar_edges (uid : StationID) (u v : AstarNode) (gloc : Coord) :
    (relax_astar uid u v gloc).stations_to = v.stations_to := by
  unfold relax_astar
  dsimp only
  split <;> rfl

theorem relax_astar_pi (uid : StationID) (u v : AstarNode) (gloc : Coord) :
    (relax_astar uid u v gloc).pi = some uid ∨ (relax_astar uid u v gloc).pi = v.pi := by
  unfold relax_astar
  dsimp only
  split
  · exact Or.inl rfl
  · exact Or.inr rfl

theorem edgesLike_amodify_eq {ν : Type} {σ : DS} {ed : ν → List (Time × Time × StationID)}
    {m : List (StationID × ν)} (h : EdgesLike σ ed m) (k : StationID) (f : ν → ν)
    (hf : ∀ w, alookup m k = some w → ed (f w) = ed w) :
    EdgesLike σ ed (amodify k f m) := by
  intro k'
  by_cases hk : k' = k
  · subst hk
    rw [alookup_amodify_self, ← h k']
    cases hw : alookup m k' with
    | none => rfl
    | some w => simp [hf w hw]
  · rw [alookup_amodify_ne _ _ hk]
    exact h k'

theorem astarScan_inv (σ : DS) (f uid : StationID) (gloc : Coord) :
    ∀ (es : List (Time × Time × StationID)) (m : List (StationID × AstarNode))
      (q : List (Int × StationID)),
      EdgesLike σ AstarNode.stations_to m →
      Reaches σ f uid →
      (∀ e ∈ es, ∃ st, alookup σ.stations uid = some st ∧ e ∈ st.stations_to) →
      QReach σ f q →
      PiReach σ f AstarNode.pi m →
      EdgesLike σ AstarNode.stations_to (astarScan uid gloc es m q).1 ∧
        QReach σ f (astarScan uid gloc es m q).2 ∧
        PiReach σ f AstarNode.pi (astarScan uid gloc es m q).1 := by
  intro es
  induction es with
  | nil =>
    intro m q hE hu hes hq hm
    exact ⟨hE, hq, hm⟩
  | cons e rest ih =>
    intro m q hE hu hes hq hm
    obtain ⟨t1, t2, dest⟩ := e
    have hes' : ∀ e ∈ rest, ∃ st, alookup σ.stations uid = some st ∧ e ∈ st.stations_to :=
      fun e he => hes e (List.mem_cons_of_mem _ he)
    cases hlu : alookup m uid with
    | none =>
      simp only [astarScan, hlu]
      exact ih m q hE hu hes' hq hm
    | some u =>
      cases hlv : alookup m dest with
      | none =>
        simp only [astarScan, hlu, hlv]
        exact ih m q hE hu hes' hq hm
      | some v =>
        have hdest : Reaches σ f dest := by
          obtain ⟨st, hst, hmem⟩ := hes (t1, t2, dest) (List.mem_cons_self _ _)
          exact Relation.ReflTransGen.tail hu ⟨st, hst, (t1, t2, dest), hmem, rfl⟩
        simp only [astarScan, hlu, hlv]
        have hE' : EdgesLike σ AstarNode.stations_to
            (amodify dest (fun _ => relax_astar uid u v gloc) m) := by
          apply edgesLike_amodify_eq hE dest
          intro w hw
          obtain rfl : v = w := Option.some.inj (hlv.symm.trans hw)
          exact relax_astar_edges uid u v gloc
        have hm' : PiReach σ f AstarNode.pi
            (amodify dest (fun _ => relax_astar uid u v gloc) m) :=
          piReach_amodify_reached hm dest _ hdest
        split
        · -- freshly coloured: push (de, dest)
          have hE'' := edgesLike_amodify hE' dest (fun w => { w with color := 1 }) (fun w => rfl)
          have hm'' := piReach_amodify_reached hm' dest (fun w => { w with color := 1 }) hdest
          have hq' := qReach_append hq (d := (relax_astar uid u v gloc).de) hdest
          exact ih _ _ hE'' hu hes' hq' hm''
        · split
          · -- re-queue: erase the pair and insert it again
            have hq' := qReach_eraseQ_append hq ((relax_astar uid u v gloc).de, dest)
              (d := (relax_astar uid u v gloc).de) hdest
            exact ih _ _ hE' hu hes' hq' hm'
          · exact ih _ _ hE' hu hes' hq hm'

theorem astarLoop_inv (σ : DS) (f gid : StationID) (gloc : Coord) :
    ∀ (fuel : Nat) (m : List (StationID × AstarNode)) (q : List (Int × StationID)),
      EdgesLike σ AstarNode.stations_to m → QReach σ f q → PiReach σ f AstarNode.pi m →
      PiReach σ f AstarNode.pi (astarLoop gid gloc fuel m q) := by
  intro fuel
  induction fuel with
  | zero => intro m q _ _ hm; exact hm
  | succ n ih =>
    intro m q hE hq hm
    cases hpop : popMinQ q with
    | none =>
      simp only [astarLoop, hpop]
      exact hm
    | some xr =>
      obtain ⟨⟨pd, uid⟩, qrest⟩ := xr
      simp only [astarLoop, hpop]
      have hx := popMinQ_mem hpop
      have hu : Reaches σ f uid := hx.1 |> hq (pd, uid)
      have hqrest : QReach σ f qrest := fun p hp => hq p (hx.2 p hp)
      cases hlu : alookup m uid with
      | none => exact ih m qrest hE hqrest hm
      | some u =>
        dsimp only
        by_cases hgid : u.id = gid
        · rw [if_pos hgid]
          exact hm
        · rw [if_neg hgid]
          have hes : ∀ e ∈ u.stations_to,
              ∃ st, alookup σ.stations uid = some st ∧ e ∈ st.stations_to := by
            intro e he
            obtain ⟨st, hst, hed⟩ := edges_of_edgesLike hE hlu
            exact ⟨st, hst, by rw [hed]; exact he⟩
          have hscan := astarScan_inv σ f uid gloc u.stations_to m qrest hE hu hes hqrest hm
          cases hres : astarScan uid gloc u.stations_to m qrest with
          | mk m' q' =>
            rw [hres] at hscan
            exact ih m' q' hscan.1 hscan.2.1 hscan.2.2

theorem route_shortest_distance_no_route (σ : DS) (f t : StationID)
    (hf : (alookup σ.stations f).isSome = true) (ht : (alookup σ.stations t).isSome = true)
    (hnr : ¬ Reaches σ f t) : (route_shortest_distance σ f t).1 = [] := by
  have hft : f ≠ t := fun h => hnr (h ▸ Relation.ReflTransGen.refl)
  obtain ⟨sf, hsf⟩ := Option.isSome_iff_exists.mp hf
  obtain ⟨sg, hsg⟩ := Option.isSome_iff_exists.mp ht
  unfold route_shortest_distance
  rw [hsf, hsg]
  dsimp only
  rw [if_neg hft]
  dsimp only
  set m1 := amodify f (fun s => { s with d := 0 }) (projMapAstar σ.stations) with hm1d
  set m2 := astarLoop sg.id sg.location (m1.length + 2) m1 [(0, f)] with hm2d
  have hE : EdgesLike σ AstarNode.stations_to m1 := by
    rw [hm1d]
    exact edgesLike_amodify (edgesLike_proj σ projAstar _ (fun s => rfl)) f _ (fun v => rfl)
  have hm1pi : PiReach σ f AstarNode.pi m1 := by
    rw [hm1d]
    intro k v hv hpi
    exfalso
    apply hpi
    by_cases hk : k = f
    · subst hk
      rw [alookup_amodify_self, projMapAstar, alookup_map] at hv
      cases hl : alookup σ.stations k with
      | none => rw [hl] at hv; simp at hv
      | some s =>
        rw [hl] at hv
        simp only [Option.map_some'] at hv
        rw [← Option.some.inj hv]
        rfl
    · rw [alookup_amodify_ne _ _ hk, projMapAstar, alookup_map] at hv
      cases hl : alookup σ.stations k with
      | none => rw [hl] at hv; simp at hv
      | some s =>
        rw [hl] at hv
        simp only [Option.map_some'] at hv
        rw [← Option.some.inj hv]
        rfl
  have hq0 : QReach σ f [(0, f)] := by
    intro p hp
    rcases List.mem_singleton.mp hp with rfl
    exact Relation.ReflTransGen.refl
  have hfin : PiReach σ f AstarNode.pi m2 := by
    rw [hm2d]
    exact astarLoop_inv σ f sg.id sg.location (m1.length + 2) m1 [(0, f)] hE hq0 hm1pi
  cases hg : alookup m2 t with
  | none => rfl
  | some g =>
    have hgpi : g.pi = none := by
      by_contra hne
      exact hnr (hfin t g hg hne)
    dsimp only
    rw [hgpi, chainWalk_none]

/-! ### route_earliest_arrival -/

theorem dijScan_inv (σ : DS) (f uid : StationID) :
    ∀ (es : List (Time × Time × StationID)) (m : List (StationID × DijNode))
      (q : List (Int × StationID)),
      EdgesLike σ DijNode.stations_to m →
      Reaches σ f uid →
      (∀ e ∈ es, ∃ st, alookup σ.stations uid = some st ∧ e ∈ st.stations_to) →
      QReach σ f q →
      PiReach σ f DijNode.pi m →
      EdgesLike σ DijNode.stations_to (dijScan uid es m q).1 ∧
        QReach σ f (dijScan uid es m q).2 ∧
        PiReach σ f DijNode.pi (dijScan uid es m q).1 := by
  intro es
  induction es with
  | nil =>
    intro m q hE hu hes hq hm
    exact ⟨hE, hq, hm⟩
  | cons e rest ih =>
    intro m q hE hu hes hq hm
    obtain ⟨dep, arr, dest⟩ := e
    have hes' : ∀ e ∈ rest, ∃ st, alookup σ.stations uid = some st ∧ e ∈ st.stations_to :=
      fun e he => hes e (List.mem_cons_of_mem _ he)
    cases hlu : alookup m uid with
    | none =>
      simp only [dijScan, hlu]
      exact ih m q hE hu hes' hq hm
    | some u =>
      cases hlv : alookup m dest with
      | none =>
        simp only [dijScan, hlu, hlv]
        exact ih m q hE hu hes' hq hm
      | some v =>
        have hdest : Reaches σ f dest := by
          obtain ⟨st, hst, hmem⟩ := hes (dep, arr, dest) (List.mem_cons_self _ _)
          exact Relation.ReflTransGen.tail hu ⟨st, hst, (dep, arr, dest), hmem, rfl⟩
        simp only [dijScan, hlu, hlv]
        by_cases hcond : v.d > (arr : Int) ∧ u.d < (arr : Int) ∧ u.d ≤ (dep : Int) ∧ (dep : Int) < (arr : Int)
        · -- the relax fired: u.d and the destination are rewritten
          rw [if_pos hcond]
          have hE' : EdgesLike σ DijNode.stations_to
              (amodify dest (fun w => { w with d := (arr : Int), pi := some uid })
                (amodify uid (fun w => { w with d := (dep : Int) }) m)) :=
            edgesLike_amodify
              (edgesLike_amodify hE uid (fun w => { w with d := (dep : Int) }) (fun w => rfl))
              dest (fun w => { w with d := (arr : Int), pi := some uid }) (fun w => rfl)
          have hm' : PiReach σ f DijNode.pi
              (amodify dest (fun w => { w with d := (arr : Int), pi := some uid })
                (amodify uid (fun w => { w with d := (dep : Int) }) m)) :=
            piReach_amodify_reached
              (piReach_amodify_reached hm uid (fun w => { w with d := (dep : Int) }) hu)
              dest (fun w => { w with d := (arr : Int), pi := some uid }) hdest
          cases hlv2 : alookup (amodify dest (fun w => { w with d := (arr : Int), pi := some uid })
              (amodify uid (fun w => { w with d := (dep : Int) }) m)) dest with
          | none => exact ih _ _ hE' hu hes' hq hm'
          | some v2 =>
            dsimp only
            by_cases hcol : v2.color = 0
            · rw [if_pos hcol]
              have hE'' := edgesLike_amodify hE' dest (fun w => { w with color := 1 }) (fun w => rfl)
              have hm'' := piReach_amodify_reached hm' dest (fun w => { w with color := 1 }) hdest
              have hq' := qReach_append hq (d := t16 v2.d) hdest
              exact ih _ _ hE'' hu hes' hq' hm''
            · rw [if_neg hcol]
              by_cases hreq : t16 v.d > v2.d ∧ (t16 v2.d, dest) ∈ q
              · rw [if_pos hreq]
                have hq' := qReach_eraseQ_append hq (t16 v2.d, dest) (d := t16 v2.d) hdest
                exact ih _ _ hE' hu hes' hq' hm'
              · rw [if_neg hreq]
                exact ih _ _ hE' hu hes' hq hm'
        · -- the relax did not fire
          rw [if_neg hcond]
          cases hlv2 : alookup m dest with
          | none => exact ih _ _ hE hu hes' hq hm
          | some v2 =>
            dsimp only
            by_cases hcol : v2.color = 0
            · rw [if_pos hcol]
              have hE'' := edgesLike_amodify hE dest (fun w => { w with color := 1 }) (fun w => rfl)
              have hm'' := piReach_amodify_reached hm dest (fun w => { w with color := 1 }) hdest
              have hq' := qReach_append hq (d := t16 v2.d) hdest
              exact ih _ _ hE'' hu hes' hq' hm''
            · rw [if_neg hcol]
              by_cases hreq : t16 v.d > v2.d ∧ (t16 v2.d, dest) ∈ q
              · rw [if_pos hreq]
                have hq' := qReach_eraseQ_append hq (t16 v2.d, dest) (d := t16 v2.d) hdest
                exact ih _ _ hE hu hes' hq' hm
              · rw [if_neg hreq]
                exact ih _ _ hE hu hes' hq hm

theorem dijLoop_inv (σ : DS) (f gid : StationID) :
    ∀ (fuel : Nat) (m : List (StationID × DijNode)) (q : List (Int × StationID)),
      EdgesLike σ DijNode.stations_to m → QReach σ f q → PiReach σ f DijNode.pi m →
      PiReach σ f DijNode.pi (dijLoop gid fuel m q) := by
  intro fuel
  induction fuel with
  | zero => intro m q _ _ hm; exact hm
  | succ n ih =>
    intro m q hE hq hm
    cases hpop : popMinQ q with
    | none =>
      simp only [dijLoop, hpop]
      exact hm
    | some xr =>
      obtain ⟨⟨pd, uid⟩, qrest⟩ := xr
      simp only [dijLoop, hpop]
      have hx := popMinQ_mem hpop
      have hu : Reaches σ f uid := hx.1 |> hq (pd, uid)
      have hqrest : QReach σ f qrest := fun p hp => hq p (hx.2 p hp)
      cases hlu : alookup m uid with
      | none => exact ih m qrest hE hqrest hm
      | some u =>
        dsimp only
        by_cases hgid : u.id = gid
        · rw [if_pos hgid]
          exact hm
        · rw [if_neg hgid]
          have hes : ∀ e ∈ u.stations_to,
              ∃ st, alookup σ.stations uid = some st ∧ e ∈ st.stations_to := by
            intro e he
            obtain ⟨st, hst, hed⟩ := edges_of_edgesLike hE hlu
            exact ⟨st, hst, by rw [hed]; exact he⟩
          have hscan := dijScan_inv σ f uid u.stations_to m qrest hE hu hes hqrest hm
          cases hres : dijScan uid u.stations_to m qrest with
          | mk m' q' =>
            rw [hres] at hscan
            exact ih m' q' hscan.1 hscan.2.1 hscan.2.2

theorem route_earliest_arrival_no_route (σ : DS) (f t : StationID) (st : Time)
    (hf : (alookup σ.stations f).isSome = true) (ht : (alookup σ.stations t).isSome = true)
    (hnr : ¬ Reaches σ f t) : (route_earliest_arrival σ f t st).1 = [] := by
  have hft : f ≠ t := fun h => hnr (h ▸ Relation.ReflTransGen.refl)
  obtain ⟨sf, hsf⟩ := Option.isSome_iff_exists.mp hf
  obtain ⟨sg, hsg⟩ := Option.isSome_iff_exists.mp ht
  unfold route_earliest_arrival
  rw [hsf, hsg]
  try dsimp only
  rw [if_neg hft]
  try dsimp only
  set m1 := amodify f (fun s => { s with d := (st : Int) }) (projMapDij σ.stations) with hm1d
  set m2 := dijLoop sg.id (m1.length + 2) m1 [(0, f)] with hm2d
  have hE : EdgesLike σ DijNode.stations_to m1 := by
    rw [hm1d]
    exact edgesLike_amodify (edgesLike_proj σ projDij _ (fun s => rfl)) f _ (fun v => rfl)
  have hm1pi : PiReach σ f DijNode.pi m1 := by
    rw [hm1d]
    intro k v hv hpi
    exfalso
    apply hpi
    by_cases hk : k = f
    · subst hk
      rw [alookup_amodify_self, projMapDij, alookup_map] at hv
      cases hl : alookup σ.stations k with
      | none => rw [hl] at hv; simp at hv
      | some s =>
        rw [hl] at hv
        simp only [Option.map_some'] at hv
        rw [← Option.some.inj hv]
        rfl
    · rw [alookup_amodify_ne _ _ hk, projMapDij, alookup_map] at hv
      cases hl : alookup σ.stations k with
      | none => rw [hl] at hv; simp at hv
      | some s =>
        rw [hl] at hv
        simp only [Option.map_some'] at hv
        rw [← Option.some.inj hv]
        rfl
  have hq0 : QReach σ f [(0, f)] := by
    intro p hp
    rcases List.mem_singleton.mp hp with rfl
    exact Relation.ReflTransGen.refl
  have hfin : PiReach σ f DijNode.pi m2 := by
    rw [hm2d]
    exact dijLoop_inv σ f sg.id (m1.length + 2) m1 [(0, f)] hE hq0 hm1pi
  cases hg : alookup m2 t with
  | none => rfl
  | some g =>
    have hgpi : g.pi = none := by
      by_contra hne
      exact hnr (hfin t g hg hne)
    dsimp only
    rw [hgpi, dijPath_none]

theorem reaches_no_edges {σ : DS} (hno : ∀ p ∈ σ.stations, p.2.stations_to = [])
    {a b : StationID} (h : Reaches σ a b) : a = b := by
  induction h with
  | refl => rfl
  | tail _ h2 ih =>
    obtain ⟨st, hl, e, he, _⟩ := h2
    rw [hno _ (alookup_mem hl)] at he
    cases he

/-- C6 amended: for the four point-to-point route queries, an unknown
endpoint yields the single-element sentinel result and known endpoints
with no path from source to destination yield the empty sequence, so the
two outcomes are never conflated; `route_with_cycle` yields the sentinel
singleton when its start is unknown.  (The original clause tying the
empty result of `route_with_cycle` to the absence of a reachable cycle
fails, see the counterexample.) -/
theorem route_failure_outcomes (σ : DS) (f t : StationID) (st : Time) :
    ((alookup σ.stations f = none ∨ alookup σ.stations t = none) →
      (route_any σ f t).1 = [(NO_STATION, NO_DISTANCE)] ∧
        (route_least_stations σ f t).1 = [(NO_STATION, NO_DISTANCE)] ∧
        (route_shortest_distance σ f t).1 = [(NO_STATION, NO_DISTANCE)] ∧
        (route_earliest_arrival σ f t st).1 = [(NO_STATION, NO_TIME)]) ∧
    (alookup σ.stations f = none → (route_with_cycle σ f).1 = [NO_STATION]) ∧
    ((alookup σ.stations f).isSome = true → (alookup σ.stations t).isSome = true →
      ¬ Reaches σ f t →
      (route_any σ f t).1 = [] ∧ (route_least_stations σ f t).1 = [] ∧
        (route_shortest_distance σ f t).1 = [] ∧ (route_earliest_arrival σ f t st).1 = []) := by
  refine ⟨?_, ?_, ?_⟩
  · intro h
    have hcond : ¬ ((alookup σ.stations f).isSome = true ∧
        (alookup σ.stations t).isSome = true) := by
      rcases h with h | h <;> simp [h]
    refine ⟨?_, ?_, ?_, ?_⟩
    · unfold route_any
      rw [if_neg hcond]
    · unfold route_least_stations
      rw [if_neg hcond]
    · unfold route_shortest_distance
      rcases h with h | h
      · rw [h]
      · rw [h]
        cases alookup σ.stations f <;> rfl
    · unfold route_earliest_arrival
      rcases h with h | h
      · rw [h]
      · rw [h]
        cases alookup σ.stations f <;> rfl
  · intro h
    unfold route_with_cycle
    rw [h]
    rfl
  · intro hf ht hnr
    exact ⟨route_any_no_route σ f t hf ht hnr,
      route_least_stations_no_route σ f t hf ht hnr,
      route_shortest_distance_no_route σ f t hf ht hnr,
      route_earliest_arrival_no_route σ f t st hf ht hnr⟩

/-- Witness for C6 amended: on the two-station edge-free state, an
unknown endpoint produces the sentinel singletons and the known but
unconnected endpoints produce empty routes. -/
theorem route_failure_outcomes_witness :
    (route_any σW6 "X" "ZZ").1 = [(NO_STATION, NO_DISTANCE)] ∧
      (route_with_cycle σW6 "ZZ").1 = [NO_STATION] ∧
      (route_any σW6 "X" "Y").1 = [] ∧ (route_earliest_arrival σW6 "X" "Y" 5).1 = [] := by
  have hnr : ¬ Reaches σW6 "X" "Y" := by
    intro h
    have := reaches_no_edges (by decide) h
    exact absurd this (by decide)
  exact ⟨((route_failure_outcomes σW6 "X" "ZZ" 5).1 (Or.inr (by decide))).1,
    (route_failure_outcomes σW6 "ZZ" "Y" 5).2.1 (by decide),
    ((route_failure_outcomes σW6 "X" "Y" 5).2.2 (by decide) (by decide) hnr).1,
    ((route_failure_outcomes σW6 "X" "Y" 5).2.2 (by decide) (by decide) hnr).2.2.2⟩

end Rail
